import Mathlib

/-!
Verification of the multi-agent orchestration engine in `gemini_app.py`
against its natural-language specification.

The Python source is shallowly embedded: file text is `String` processed
character-by-character (Python line/regex handling is re-implemented
structurally so every definition evaluates by kernel reduction), the
filesystem is a list of path entries, machine integers are `Int`/`Nat`
(all quantities involved are small and non-overflowing), and fallible
operations return `Option`/`Except`/dedicated result types.  Each
definition mirrors one function or constant of the source, named after it
where Lean's lexer allows.
-/

/-! ## Basic character and string helpers (Python built-ins used by the source) -/

/-- Python `str.splitlines` (for text using LF newlines): splits at each
newline character, without keeping it, and produces no trailing empty
element for a trailing newline.  Accumulator holds the current line
reversed. -/
def splitlinesChars : List Char → List Char → List (List Char)
  | [], acc => if acc.isEmpty then [] else [acc.reverse]
  | c :: rest, acc =>
    if c = '\n' then acc.reverse :: splitlinesChars rest []
    else splitlinesChars rest (c :: acc)

/-- `"...".splitlines()` on a string (LF newline convention). -/
def pySplitlines (s : String) : List String :=
  (splitlinesChars s.data []).map (fun l => String.mk l)

/-- Python `"\n".join(lines)`. -/
def joinLines : List String → String
  | [] => ""
  | [x] => x
  | x :: rest => x ++ "\n" ++ joinLines rest

/-- Whether a Python string ends with the given character (`str.endswith`). -/
def endsWithChar (s : String) (c : Char) : Bool := s.data.getLast? = some c

/-- Python `\s` whitespace class (ASCII part). -/
def pyIsSpace (c : Char) : Bool :=
  c = ' ' || c = '\t' || c = '\n' || c = '\r' || c = '\x0b' || c = '\x0c'

/-- ASCII decimal digit (regex `\d` for the ASCII texts involved). -/
def isDigitChar (c : Char) : Bool := 48 ≤ c.toNat && c.toNat ≤ 57

/-- Regex `\w` word character (ASCII part: letters, digits, underscore). -/
def isWordChar (c : Char) : Bool :=
  isDigitChar c || (65 ≤ c.toNat && c.toNat ≤ 90) || (97 ≤ c.toNat && c.toNat ≤ 122) || c = '_'

/-- The numeric value of a list of ASCII digits, most significant first
(Python `int(s)` on a digit string). -/
def digitsVal (cs : List Char) : Nat := cs.foldl (fun a c => 10 * a + (c.toNat - 48)) 0

/-- The ASCII digit character for a value below ten. -/
def digitChar : Nat → Char
  | 0 => '0' | 1 => '1' | 2 => '2' | 3 => '3' | 4 => '4'
  | 5 => '5' | 6 => '6' | 7 => '7' | 8 => '8' | _ => '9'

/-- Decimal digits of a natural number, most significant first; fuel-driven
so that it evaluates by kernel reduction (`natReprFuel (n+1) n` is exact). -/
def natReprFuel : Nat → Nat → List Char
  | 0, _ => []
  | fuel + 1, n => if n < 10 then [digitChar n] else natReprFuel fuel (n / 10) ++ [digitChar (n % 10)]

/-- Python `str(n)` for a non-negative integer. -/
def natRepr (n : Nat) : String := String.mk (natReprFuel (n + 1) n)

/-- Generic separator split of a character list; the accumulator holds the
current token reversed.  Always yields at least one (possibly empty) token. -/
def splitTokens (isSep : Char → Bool) : List Char → List Char → List String
  | [], acc => [String.mk acc.reverse]
  | c :: rest, acc =>
    if isSep c then String.mk acc.reverse :: splitTokens isSep rest []
    else splitTokens isSep rest (c :: acc)

/-- Python `str.upper` (ASCII). -/
def upperStr (s : String) : String := String.mk (s.data.map Char.toUpper)

/-! ## Grading aggregation (`_calculate_overall_grade`, lines 2920-2925) -/

/-- `_calculate_overall_grade`: mean of the grades that are present,
rounded down by integer division; `none` when no grade is present. -/
def calculate_overall_grade (critic_grade art_grade : Option Nat) : Option Nat :=
  let grades := [critic_grade, art_grade].filterMap id
  if grades.isEmpty then none else some (grades.sum / grades.length)

/-! ## Plan normalization (`_get_plan_from_planner`, lines 1216-1273) -/

/-- One parsed plan step: the dict `{agent_name, instruction, is_final_step}`. -/
structure PlanStep where
  agent_name : String
  instruction : String
  is_final_step : Bool
deriving DecidableEq, Repr

/-- The instruction text the orchestrator writes into the final persona step. -/
def personaInstruction (user_prompt : String) : String :=
  "Review the completion of the original user request: '" ++ user_prompt ++
  "'. Analyze the actions taken and determine if the goal has been fully met or if further actions/a re-plan is required."

/-- The synthesized final `PersonaAgent` step. -/
def personaFinalStep (user_prompt : String) : PlanStep :=
  { agent_name := "PersonaAgent", instruction := personaInstruction user_prompt, is_final_step := true }

/-- Rewrite the last element of a list in place (`parsed_plan[-1][...] = ...`). -/
def updateLastStep (f : PlanStep → PlanStep) : List PlanStep → List PlanStep
  | [] => []
  | [s] => [f s]
  | s :: rest => s :: updateLastStep f rest

/-- The normalization `_get_plan_from_planner` applies to a structurally valid
parsed plan before returning it (lines 1226-1242, identical fallback at
1258-1269): when the last step is not the `PersonaAgent`, demote that last
step's `is_final_step` and append a synthesized final persona step; otherwise
force the last step's flag to true and overwrite its instruction. -/
def normalizePlan (user_prompt : String) (parsed_plan : List PlanStep) : List PlanStep :=
  if parsed_plan.getLast?.map PlanStep.agent_name ≠ some "PersonaAgent" then
    updateLastStep (fun s => { s with is_final_step := false }) parsed_plan ++ [personaFinalStep user_prompt]
  else
    updateLastStep (fun s => { s with is_final_step := true, instruction := personaInstruction user_prompt }) parsed_plan

/-- The invariant claimed for normalized plans: exactly one step is final,
it is the last element, and it targets the persona role. -/
def planInvariant (plan : List PlanStep) : Prop :=
  plan.countP (fun s => s.is_final_step) = 1 ∧
  ∃ last, plan.getLast? = some last ∧ last.is_final_step = true ∧ last.agent_name = "PersonaAgent"

instance (plan : List PlanStep) : Decidable (planInvariant plan) := by
  unfold planInvariant
  have : Decidable (∃ last, plan.getLast? = some last ∧ last.is_final_step = true ∧ last.agent_name = "PersonaAgent") := by
    refine decidable_of_iff (∃ last ∈ plan.getLast?.toList, last.is_final_step = true ∧ last.agent_name = "PersonaAgent") ?_
    constructor
    · rintro ⟨l, hl, h⟩
      exact ⟨l, by cases hp : plan.getLast? <;> simp_all [Option.toList], h⟩
    · rintro ⟨l, hl, h⟩
      exact ⟨l, by simp [hl], h⟩
  exact instDecidableAnd

/-! ## Safe path resolution (`_safe_path`, lines 2927-2951) -/

/-- Split a path string at `/` and drop empty components (how `pathlib`
parses the textual components of a POSIX path). -/
def parseComponents (s : String) : List String :=
  (splitTokens (fun c => c = '/') s.data []).filter (fun t => t ≠ "")

/-- Whether the candidate is an absolute POSIX path. -/
def isAbsolutePath (s : String) : Bool :=
  match s.data with
  | '/' :: _ => true
  | _ => false

/-- `Path.resolve()` on a component list of an absolute path (a filesystem
without symbolic links): `.` vanishes and `..` pops one component, clamped
at the root.  Accumulator holds the resolved components reversed. -/
def resolveComps : List String → List String → List String
  | [], acc => acc.reverse
  | c :: rest, acc =>
    if c = "." then resolveComps rest acc
    else if c = ".." then resolveComps rest acc.tail
    else resolveComps rest (c :: acc)

/-- Resolved absolute form of a component list. -/
def resolvePath (p : List String) : List String := resolveComps p []

/-- `VM_DIR / filename_str`: pathlib joining, where an absolute right operand
replaces the left one. -/
def joinUnderRoot (vm_dir : List String) (filename_str : String) : List String :=
  if isAbsolutePath filename_str then parseComponents filename_str
  else vm_dir ++ parseComponents filename_str

/-- `_safe_path`: resolve the candidate against the workspace root and verify
with `relative_to` that the result stays inside the resolved root;
`vm_dir` is the component list of the absolute `VM_DIR`. -/
def safe_path (vm_dir : List String) (filename_str : String) : Option (List String) :=
  if filename_str = "" then none
  else
    let full_path := resolvePath (joinUnderRoot vm_dir filename_str)
    let vm_dir_resolved := resolvePath vm_dir
    if vm_dir_resolved.isPrefixOf full_path then some full_path else none

/-! ## External command execution (`_run_command`, lines 3220-3272) -/

/-- Outcome of the process-execution collaborator (`subprocess.run`):
normal exit with captured streams, timeout, or a launch failure raised as
an exception. -/
inductive ProcOutcome where
  | exited (returncode : Int) (stdout stderr : String)
  | timedOut
  | launchError (msg : String)
deriving DecidableEq

/-- Modelled from the Python stdlib `shlex.split` at the granularity
`_run_command` depends on: whitespace-separated tokens (quote handling is
irrelevant to the claims and omitted). -/
def shlexSplit (command : String) : List String :=
  (splitTokens pyIsSpace command.data []).filter (fun t => t ≠ "")

/-- What `_run_command` returns: a plain output string on success (or for a
missing command), or the `REPLAN_REQUESTED` dict with its reason. -/
inductive RunResult where
  | outputMsg (s : String)
  | replanRequested (reason : String)
deriving DecidableEq

/-- `_run_command`: runs the command with a 120 s timeout; zero exit yields a
formatted status string, non-zero exit, timeout, and launch failure each
yield a replan request whose reason carries the detail.  `elapsed_display`
stands for the measured wall-clock seconds interpolated into the header. -/
def run_command (command : String) (elapsed_display : String) (outcome : ProcOutcome) : RunResult :=
  if command = "" then .outputMsg "❌ No command provided"
  else if shlexSplit command = [] then .outputMsg "❌ Empty command provided"
  else
    match outcome with
    | .exited returncode stdout stderr =>
      let header := "🔧 Command: " ++ command ++ "\n⏱️ Execution time: " ++ elapsed_display ++ "s\n"
      let withOut := if stdout ≠ "" then header ++ "📤 STDOUT:\n" ++ stdout ++ "\n" else header
      let withErr := if stderr ≠ "" then withOut ++ "⚠️ STDERR:\n" ++ stderr ++ "\n" else withOut
      if returncode = 0 then .outputMsg (withErr ++ "✅ Command completed successfully")
      else .replanRequested ("The command '" ++ command ++ "' failed with exit code " ++ toString returncode ++ ". Stderr: " ++ stderr)
    | .timedOut => .replanRequested ("The command '" ++ command ++ "' timed out after 120 seconds.")
    | .launchError msg => .replanRequested ("Command execution error for '" ++ command ++ "': " ++ msg)

/-! ## Directive interpreter events (`_process_enhanced_commands`, lines 2687-2799) -/

/-- The discrete event records the interpreter yields onto the queue. -/
inductive AgentEvent where
  | system (content : String)
  | errorEvent (content : String)
  | replanRequest (reason : String) (agent_name : String)
  | fileChanged (content : String)
deriving DecidableEq

/-- How `_process_enhanced_commands` turns the value returned by
`_run_command` into an event (lines 2746-2755): the `REPLAN_REQUESTED` dict
becomes a structured replan-request event attributed to `MainCoder`, a plain
string becomes a system status message. -/
def dispatch_run_command (res : RunResult) : AgentEvent :=
  match res with
  | .replanRequested reason => .replanRequest reason "MainCoder"
  | .outputMsg s => .system s

/-- A Python literal value accepted as a directive argument. -/
inductive PyLit where
  | str (s : String)
  | int (n : Int)
  | bool (b : Bool)
  | noneLit
deriving DecidableEq

/-- An argument expression in a parsed call: a literal, or something
`ast.literal_eval` rejects. -/
inductive PyExpr where
  | lit (v : PyLit)
  | nonLiteral (txt : String)
deriving DecidableEq

/-- A parsed `ast.Call` with a bare function name: positional arguments and
keyword arguments as they appear in the directive text. -/
structure PyCall where
  func : String
  args : List PyExpr
  keywords : List (String × PyExpr)
deriving DecidableEq

/-- The fixed whitelist: the keys of `self.command_handlers` (lines 983-995). -/
def commandWhitelist : List String :=
  ["create_file", "write_to_file", "delete_file", "run_command", "generate_image",
   "rename_file", "set_user_preference", "get_user_preference",
   "list_directory_contents", "replace_file_snippet", "edit_file_lines"]

/-- The argument-evaluation loop of lines 2717-2731: each element of
`call_node.args` (positional arguments only) through `ast.literal_eval`;
the first non-literal aborts with `none` (the error path). -/
def evalLiteralArgs : List PyExpr → Option (List PyLit)
  | [] => some []
  | .lit v :: rest => (evalLiteralArgs rest).map (fun vs => v :: vs)
  | .nonLiteral _ :: _ => none

/-- Processing of one parsed, name-checked candidate call (lines 2711-2731):
the events yielded before dispatch, and the invocation passed to the handler
(`handlers[func_name](*args)`) when validation passes.  `call.keywords` is
never consulted, mirroring the source, which reads only `call_node.args`. -/
def process_parsed_call (call : PyCall) (command_str : String) :
    List AgentEvent × Option (String × List PyLit) :=
  if call.func ∉ commandWhitelist then
    ([.errorEvent ("❌ Unknown command: `" ++ call.func ++ "`")], none)
  else
    match evalLiteralArgs call.args with
    | none => ([.errorEvent ("❌ Command error: Invalid argument in `" ++ command_str ++ "`")], none)
    | some args => ([], some (call.func, args))

/-- Parameter binding of `_list_directory_contents(target_path_str=".",
recursive=True)` (line 2953): positional arguments fill the declared
parameters left to right, the rest keep their default values. -/
def bindListDirectoryArgs (args : List PyLit) : Option (String × Bool) :=
  match args with
  | [] => some (".", true)
  | [.str p] => some (p, true)
  | [.str p, .bool r] => some (p, r)
  | _ => none

/-! ## Line-range editing (`_edit_file_lines`, lines 3033-3135) -/

/-- Lines 3118-3128: join the edited lines, preserve the original trailing
newline convention (also adding one when a previously empty file gained
content), and force an empty file when a deletion removed every line. -/
def renderEdited (original_content : String) (lines : List String)
    (new_lines : List String) (is_deletion : Bool) : String :=
  let modified := joinLines lines
  let modified :=
    if (endsWithChar original_content '\n' = true ∧ modified ≠ "") ∨
       (original_content = "" ∧ modified ≠ "") then
      (if ¬ endsWithChar modified '\n' = true then modified ++ "\n" else modified)
    else modified
  if lines.isEmpty ∧ new_lines.isEmpty ∧ is_deletion = true then "" else modified

/-- `_edit_file_lines` on the file's text: 1-indexed inclusive line numbers,
mode chosen by emptiness of `new_content_str` (delete) and `end < start`
(insert), otherwise replace; validation errors become `Except.error` with
the source's message.  The source's lines 3089-3091 (replacing with one
empty line) are unreachable, because an empty `new_content_str` always
selects deletion, and are therefore not reproduced. -/
def edit_file_lines (original_content : String) (start_line_usr end_line_usr : Int)
    (new_content_str : String) : Except String String :=
  let lines := pySplitlines original_content
  let num_lines : Int := (lines.length : Int)
  let is_insertion := end_line_usr < start_line_usr
  let is_deletion := new_content_str = ""
  let new_lines : List String := if new_content_str = "" then [] else pySplitlines new_content_str
  let s_idx : Nat := (start_line_usr - 1).toNat
  if is_deletion then
    if 1 ≤ start_line_usr ∧ start_line_usr ≤ num_lines ∧ 1 ≤ end_line_usr ∧
        end_line_usr ≤ num_lines ∧ start_line_usr ≤ end_line_usr then
      let e_idx : Nat := (end_line_usr - 1).toNat
      let lines2 := lines.take s_idx ++ lines.drop (e_idx + 1)
      .ok (renderEdited original_content lines2 new_lines true)
    else
      .error ("❌ Error: Invalid line numbers for deletion. File has " ++ toString num_lines ++
        " lines. Received start=" ++ toString start_line_usr ++ ", end=" ++ toString end_line_usr ++ ".")
  else if is_insertion then
    if 1 ≤ start_line_usr ∧ start_line_usr ≤ num_lines + 1 then
      let lines2 := lines.take s_idx ++ new_lines ++ lines.drop s_idx
      .ok (renderEdited original_content lines2 new_lines false)
    else
      .error ("❌ Error: Invalid start_line for insertion. File has " ++ toString num_lines ++
        " lines. Received start=" ++ toString start_line_usr ++ " (max " ++ toString (num_lines + 1) ++ " to append).")
  else
    if (1 ≤ start_line_usr ∧ start_line_usr ≤ num_lines ∧ 1 ≤ end_line_usr ∧
        end_line_usr ≤ num_lines ∧ start_line_usr ≤ end_line_usr) ∨
       (num_lines = 0 ∧ start_line_usr = 1 ∧ end_line_usr = 1) ∨
       (num_lines = 1 ∧ lines = [""] ∧ start_line_usr = 1 ∧ end_line_usr = 1) then
      let e_idx : Nat := (end_line_usr - 1).toNat
      let lines2 :=
        if num_lines = 0 ∧ s_idx = 0 then new_lines
        else lines.take s_idx ++ new_lines ++ lines.drop (e_idx + 1)
      .ok (renderEdited original_content lines2 new_lines false)
    else
      .error ("❌ Error: Invalid line numbers for replacement. File has " ++ toString num_lines ++
        " lines. Received start=" ++ toString start_line_usr ++ ", end=" ++ toString end_line_usr ++ ".")

/-! ## Memory journal (`_log_to_memory`, lines 1034-1110; `_estimate_token_count`, lines 1157-1161) -/

/-- One journal line's fields as `_log_to_memory` writes them. -/
structure MemEntry where
  timestamp : String
  priority : Nat
  category : String
  content : String
deriving DecidableEq

/-- Line 1042: `f"[{timestamp}] [P{priority}] [{category.upper()}] {content}\n"`. -/
def renderMemLine (e : MemEntry) : String :=
  "[" ++ e.timestamp ++ "] [P" ++ natRepr e.priority ++ "] [" ++ upperStr e.category ++ "] " ++ e.content ++ "\n"

/-- `_estimate_token_count`: content length divided by four characters per token. -/
def estimate_token_count (text : String) : Nat := text.length / 4

/-- The tail of the priority regex after the lazily matched group: literal
`] [P`, one or more digits (greedy), then `]`. -/
def priorityTail (l : List Char) : Option Nat :=
  match l with
  | ']' :: ' ' :: '[' :: 'P' :: rest =>
    let digits := rest.takeWhile isDigitChar
    if digits = [] then none
    else
      match rest.drop digits.length with
      | ']' :: _ => some (digitsVal digits)
      | _ => none
  | _ => none

/-- The lazy group `(.*?)`: try the shortest prefix first, growing one
character at a time until the tail matches. -/
def parsePriorityScan : List Char → Option Nat
  | [] => none
  | c :: rest =>
    match priorityTail (c :: rest) with
    | some n => some n
    | none => parsePriorityScan rest

/-- Line 1063: `re.match(r"\[(.*?)\] \[P(\d+)\]", line)`, returning the
priority capture as an integer when the anchored pattern matches. -/
def parse_priority (line : String) : Option Nat :=
  match line.data with
  | '[' :: rest => parsePriorityScan rest
  | _ => none

/-- Line 1047: `MAX_HIGH_PRIORITY_TOKENS = 10000`. -/
def maxHighPriorityTokens : Nat := 10000

/-- Line 1048: `HIGH_PRIORITY_THRESHOLD = 2`. -/
def highPriorityThreshold : Nat := 2

/-- Whether the pruning pass counts this line as high-priority: its parsed
priority is at most the threshold (lines 1062-1069). -/
def isHighPriorityLine (e : MemEntry) : Bool :=
  match parse_priority (renderMemLine e) with
  | some p => p ≤ highPriorityThreshold
  | none => false

/-- The estimated token cost the pruning pass assigns to one line. -/
def memEntryTokens (e : MemEntry) : Nat := estimate_token_count (renderMemLine e)

/-- The removal loop of lines 1080-1085 over the high-priority lines' token
counts, oldest first: how many lines it deletes before `tokens_to_remove`
reaches zero or the list is exhausted. -/
def greedyRemoveCount : List Nat → Int → Nat
  | [], _ => 0
  | t :: rest, excess => if excess ≤ 0 then 0 else 1 + greedyRemoveCount rest (excess - (t : Int))

/-- Delete the first `k` high-priority lines from the journal, keeping every
other line in order (the rebuild of `new_lines` at line 1088). -/
def dropFirstHighs : Nat → List MemEntry → List MemEntry
  | _, [] => []
  | 0, l => l
  | k + 1, e :: rest =>
    if isHighPriorityLine e then dropFirstHighs k rest
    else e :: dropFirstHighs (k + 1) rest

/-- Line 1097: the pruning record appended after a rewrite, at priority 3. -/
def pruneNotice (prune_ts : String) (removed_count : Nat) : MemEntry :=
  { timestamp := prune_ts, priority := 3, category := "SYSTEM_EVENT",
    content := "Auto-pruned " ++ natRepr removed_count ++
      " high-priority memory entries to manage size (limit: " ++ natRepr maxHighPriorityTokens ++ " tokens)." }

/-- Total estimated token cost of the high-priority lines (lines 1059-1069). -/
def highTokenTotal (lines : List MemEntry) : Nat :=
  ((lines.filter isHighPriorityLine).map memEntryTokens).sum

/-- The pruning pass of lines 1046-1099 on the journal's lines: when the
high-priority total exceeds the budget, delete the oldest high-priority
lines until the shortfall is covered, then append the pruning record. -/
def pruneMemory (lines : List MemEntry) (prune_ts : String) : List MemEntry :=
  let total := highTokenTotal lines
  if total > maxHighPriorityTokens then
    let k := greedyRemoveCount ((lines.filter isHighPriorityLine).map memEntryTokens)
      ((total : Int) - (maxHighPriorityTokens : Int))
    if k = 0 then lines
    else dropFirstHighs k lines ++ [pruneNotice prune_ts k]
  else lines

/-- `_log_to_memory`: append the formatted line, then run the pruning pass.
`ts` is the entry's timestamp, `prune_ts` the later one a pruning record
would carry.  The model is faithful for journals whose rendered entries are
one line each and parse back to their own priority (see `memEntryWellFormed`). -/
def log_to_memory (journal : List MemEntry) (category content : String) (priority : Nat)
    (ts prune_ts : String) : List MemEntry :=
  pruneMemory (journal ++ [{ timestamp := ts, priority := priority, category := category, content := content }]) prune_ts

/-- Well-formedness of an entry under the file round trip the source
performs: its rendered line is a single line whose regex parse recovers its
own priority (true of every line the logger writes: timestamps from
`strftime` contain neither `]` nor newlines). -/
def memEntryWellFormed (e : MemEntry) : Prop :=
  parse_priority (renderMemLine e) = some e.priority ∧
  '\n' ∉ e.timestamp.data ∧ '\n' ∉ e.category.data ∧ '\n' ∉ e.content.data

instance (e : MemEntry) : Decidable (memEntryWellFormed e) := by
  unfold memEntryWellFormed
  exact instDecidableAnd

/-! ## Trash-based delete (`_delete_file`, lines 3176-3218) -/

/-- Line 40: `TRASH_DIR_NAME = ".trash"`. -/
def trashDirName : String := ".trash"

/-- One filesystem node: its absolute path (component list) and whether it
is a directory. -/
structure FsEntry where
  path : List String
  is_dir : Bool
deriving DecidableEq

/-- `Path.exists()` over the modelled filesystem. -/
def pathExists (fs : List FsEntry) (p : List String) : Bool :=
  fs.any (fun e => e.path = p)

/-- `PurePath.stem` and `PurePath.suffix` of a file name: split at the last
dot when that dot is neither the first nor the last character. -/
def splitStemSuffix (name : String) : String × String :=
  let cs := name.data
  let k := (cs.reverse.takeWhile (fun c => c ≠ '.')).length
  if k = cs.length then (name, "")
  else if cs.length - k - 1 = 0 ∨ k = 0 then (name, "")
  else (String.mk (cs.take (cs.length - k - 1)), String.mk (cs.drop (cs.length - k - 1)))

/-- Lines 3203-3206: the renamed candidate for collision counter `counter`
(a directory keeps its whole name, a file splits off its suffix). -/
def trashCandidateName (original_name : String) (is_dir : Bool) (ts : String) (counter : Nat) : String :=
  if is_dir then original_name ++ "." ++ ts ++ "_" ++ natRepr counter
  else
    let p := splitStemSuffix original_name
    p.1 ++ "." ++ ts ++ "_" ++ natRepr counter ++ p.2

/-- The `while destination_in_trash.exists()` loop of lines 3196-3207,
fuel-driven: keep incrementing the counter and renaming until the candidate
name is free in the trash (the fuel used below always suffices to find a
free name, see the freshness lemma). -/
def freshTrashLoop (fs1 : List FsEntry) (trash_dir : List String) (orig : String)
    (is_dir : Bool) (ts : String) : Nat → Nat → String → String
  | 0, _, current => current
  | fuel + 1, counter, current =>
    if pathExists fs1 (trash_dir ++ [current]) = false then current
    else freshTrashLoop fs1 trash_dir orig is_dir ts fuel (counter + 1)
      (trashCandidateName orig is_dir ts (counter + 1))

/-- The collision-free destination name `_delete_file` settles on. -/
def fresh_trash_name (fs1 : List FsEntry) (trash_dir : List String) (orig : String)
    (is_dir : Bool) (ts : String) : String :=
  freshTrashLoop fs1 trash_dir orig is_dir ts (fs1.length + 1) 0 orig

/-- Relocate one path under a move of `src` to `dst` (`shutil.move` takes the
whole subtree along). -/
def rebasePath (src dst : List String) (q : List String) : List String :=
  if src.isPrefixOf q then dst ++ q.drop src.length else q

/-- `shutil.move(src, dst)` over the modelled filesystem. -/
def moveEntry (src dst : List String) (fs : List FsEntry) : List FsEntry :=
  fs.map (fun e => { e with path := rebasePath src dst e.path })


/-- Result of `_delete_file`: an error message, or the new filesystem with
the trash destination path and the status message. -/
inductive DeleteResult where
  | failure (msg : String)
  | moved (fs' : List FsEntry) (dest : List String) (msg : String)
deriving DecidableEq

/-- Look up whether the node at `p` is a directory. -/
def isDirAt (fs : List FsEntry) (p : List String) : Bool :=
  match fs.find? (fun e => e.path = p) with
  | some e => e.is_dir
  | none => false

/-- `_delete_file`: validate the path, require existence, create the trash
directory if absent, pick a collision-free destination name, and move the
node (with its subtree) into the trash.  `ts` stands for the
`datetime.now().strftime("%Y%m%d%H%M%S")` stamp used in renamed candidates. -/
def delete_file (vm_dir : List String) (fs : List FsEntry) (ts : String)
    (path_str : String) : DeleteResult :=
  match safe_path vm_dir path_str with
  | none => .failure ("❌ Item not found: " ++ path_str)
  | some filepath_to_trash =>
    if pathExists fs filepath_to_trash = false then
      .failure ("❌ Item not found: " ++ path_str)
    else
      let trash_dir := vm_dir ++ [trashDirName]
      let fs1 := if pathExists fs trash_dir then fs
        else fs ++ [{ path := trash_dir, is_dir := true }]
      let name := filepath_to_trash.getLastD ""
      let item_is_dir := isDirAt fs filepath_to_trash
      let dest_name := fresh_trash_name fs1 trash_dir name item_is_dir ts
      let dest := trash_dir ++ [dest_name]
      .moved (moveEntry filepath_to_trash dest fs1) dest
        ("🗑️ Moved " ++ (if item_is_dir then "directory" else "file") ++
         " to trash: " ++ path_str ++ " (as " ++ dest_name ++ ")")

/-! ## Retry decision (`_handle_retry_and_finalization`, lines 1604-1676; `__init__`, line 973) -/

/-- One art-critique record as assembled by the grading loop:
`{image_path, critique_text, grade}` with the text elided. -/
structure ArtCritique where
  image_path : String
  grade : Option Nat
deriving DecidableEq

/-- The critiques the counting loop of lines 1617-1623 counts: image path in
the current batch and a grade present. -/
def gradedBatchCritiques (batch : List String) (critiques : List ArtCritique) : List ArtCritique :=
  critiques.filter (fun cq => batch.contains cq.image_path && cq.grade.isSome)

/-- Lines 1609-1631: whether `perform_retry` ends up true.  First condition:
grading on, images generated, some critique graded, and every graded batch
image failed (< 70).  Second condition (only when the first did not fire):
some grade present and the overall grade below 70. -/
def perform_retry_decision (grading_enabled : Bool) (batch : List String)
    (all_art_critiques : List ArtCritique) (critic_grade final_art_grade : Option Nat) : Bool :=
  let overall := calculate_overall_grade critic_grade final_art_grade
  let cond1 :=
    if grading_enabled && !batch.isEmpty && all_art_critiques.any (fun cq => cq.grade.isSome) then
      let graded := gradedBatchCritiques batch all_art_critiques
      let failing := graded.filter (fun cq => cq.grade.getD 0 < 70)
      decide (0 < graded.length ∧ graded.length = failing.length)
    else false
  if cond1 then true
  else if grading_enabled && (critic_grade.isSome || final_art_grade.isSome) then
    match overall with
    | some o => decide (o < 70)
    | none => false
  else false

/-- Line 973: `self.max_retry_attempts = 3`. -/
def max_retry_attempts : Nat := 3

/-- Line 1637: an actual retry happens only when `perform_retry` is set and
the attempt counter is still below the maximum. -/
def retry_performed (perform_retry : Bool) (current_attempt : Nat) : Bool :=
  perform_retry && decide (current_attempt < max_retry_attempts)

/-! ## Grade extraction (`_extract_grade`, lines 2908-2918) -/

/-- Consume the pattern characters case-insensitively at the head of the
text, returning the rest on success (`re.IGNORECASE` literal matching). -/
def matchLower : List Char → List Char → Option (List Char)
  | [], rest => some rest
  | _ :: _, [] => none
  | p :: ps, c :: cs => if c.toLower = p then matchLower ps cs else none

/-- The pattern `GRADE:\s*(\d+)/100` anchored at the head of the text:
literal `GRADE:` (case-insensitive), greedy whitespace, one or more digits
(greedy, captured), then the literal `/100`. -/
def gradeSlashAt (l : List Char) : Option Nat :=
  match matchLower "grade:".data l with
  | none => none
  | some rest =>
    let ws := rest.dropWhile pyIsSpace
    let digits := ws.takeWhile isDigitChar
    if digits = [] then none
    else
      match matchLower "/100".data (ws.drop digits.length) with
      | some _ => some (digitsVal digits)
      | none => none

/-- `re.search` for the first pattern: try every start position left to
right. -/
def searchGradeSlash : List Char → Option Nat
  | [] => none
  | c :: rest =>
    match gradeSlashAt (c :: rest) with
    | some n => some n
    | none => searchGradeSlash rest

/-- A word boundary `\b` against the neighbouring character (`none` at the
ends of the text). -/
def boundaryOk : Option Char → Bool
  | none => true
  | some c => !isWordChar c

/-- The backtracking over the capture length of `(\d{1,3})\b`: try taking
`k` digits, longest first; the taken digits must be followed by a word
boundary. -/
def looseTryK (digits after : List Char) : Nat → Option Nat
  | 0 => none
  | k + 1 =>
    if k + 1 ≤ digits.length && boundaryOk ((digits.drop (k + 1) ++ after).head?) then
      some (digitsVal (digits.take (k + 1)))
    else looseTryK digits after k

/-- The pattern `\bgrade[:\s]*(\d{1,3})\b` anchored at the head of the text
(`prev` is the character just before, for the leading word boundary):
literal `grade` (case-insensitive), greedy colons/whitespace, then one to
three captured digits ending at a word boundary. -/
def gradeLooseAt (prev : Option Char) (l : List Char) : Option Nat :=
  if boundaryOk prev = false then none
  else
    match matchLower "grade".data l with
    | none => none
    | some rest =>
      let rest2 := rest.dropWhile (fun c => c = ':' || pyIsSpace c)
      let digits := rest2.takeWhile isDigitChar
      looseTryK digits (rest2.drop digits.length) 3

/-- `re.search` for the fallback pattern, tracking the previous character
for the word boundary. -/
def searchGradeLoose : Option Char → List Char → Option Nat
  | _, [] => none
  | prev, c :: rest =>
    match gradeLooseAt prev (c :: rest) with
    | some n => some n
    | none => searchGradeLoose (some c) rest

/-- `_extract_grade`: empty (falsy) responses give `None`; otherwise the
strict `GRADE: n/100` pattern is tried first and the looser `grade: n`
pattern only as a fallback. -/
def extract_grade (agent_response : String) : Option Nat :=
  if agent_response = "" then none
  else
    match searchGradeSlash agent_response.data with
    | some n => some n
    | none => searchGradeLoose none agent_response.data


/-- A concrete high-priority journal entry used to exercise the pruning
pass: a priority-1 note with a 100-character content. -/
def memWitnessEntry (ts : String) : MemEntry :=
  { timestamp := ts, priority := 1, category := "NOTE",
    content := String.mk (List.replicate 100 'a') }

/-- A journal of 450 such entries: its high-priority token total exceeds the
10000-token budget. -/
def memWitnessJournal : List MemEntry :=
  List.replicate 450 (memWitnessEntry "2024-01-01 00:00:01")

/-! ## Theorems -/

/-! ### C9: overall grade aggregation -/

/-- C9: the overall grade is the arithmetic mean of the present grades
rounded down, and absent when no grade is present: both absent gives
absent, one present grade passes through unchanged (mean of one value),
and two present grades give their floored average — in particular
`grade(80, absent) = 80`, `grade(absent, absent) = absent` and
`grade(60, 90) = 75`. -/
theorem calculate_overall_grade_spec (x y : Nat) :
    calculate_overall_grade none none = none ∧
    calculate_overall_grade (some x) none = some x ∧
    calculate_overall_grade none (some y) = some y ∧
    calculate_overall_grade (some x) (some y) = some ((x + y) / 2) := by
  refine ⟨rfl, ?_, ?_, ?_⟩ <;> simp [calculate_overall_grade]

/-! ### C1: plan normalization invariant -/

theorem updateLastStep_eq_concat (f : PlanStep → PlanStep) :
    ∀ (l : List PlanStep) (last : PlanStep), l.getLast? = some last →
      updateLastStep f l = l.dropLast ++ [f last]
  | [], _, h => by simp at h
  | [s], last, h => by
    simp [List.getLast?] at h
    simp [updateLastStep, h]
  | s :: s' :: rest, last, h => by
    have htail : (s' :: rest).getLast? = some last := by
      rw [List.getLast?_cons_cons] at h
      exact h
    have ih := updateLastStep_eq_concat f (s' :: rest) last htail
    simp [updateLastStep, ih]

/-- C1 counterexample: a plan whose first step is mis-flagged final and whose
last step already targets the persona keeps two final steps after
normalization, so the claimed "exactly one final step" invariant fails. -/
theorem normalizePlan_double_final_counterexample :
    ¬ planInvariant (normalizePlan "p"
      [{ agent_name := "MainCoder", instruction := "x", is_final_step := true },
       { agent_name := "PersonaAgent", instruction := "y", is_final_step := false }]) := by
  decide

/-- C1 amended: the normalization guarantees that the last step is a final
`PersonaAgent` step, but it only rewrites the last element of the planner's
list; the full invariant — exactly one final step, last, targeting the
persona — holds exactly when no step before the planner's last one was
flagged final. -/
theorem normalizePlan_invariant_of_no_early_final (user_prompt : String) (plan : List PlanStep)
    (h : ∀ s ∈ plan.dropLast, s.is_final_step = false) :
    planInvariant (normalizePlan user_prompt plan) := by
  unfold normalizePlan
  by_cases hc : plan.getLast?.map PlanStep.agent_name ≠ some "PersonaAgent"
  · rw [if_pos hc]
    cases hl : plan.getLast? with
    | none =>
      have hnil : plan = [] := List.getLast?_eq_none_iff.mp hl
      subst hnil
      refine ⟨by rfl, ?_⟩
      exact ⟨personaFinalStep user_prompt, by simp [updateLastStep], rfl, rfl⟩
    | some last =>
      rw [updateLastStep_eq_concat _ plan last hl]
      constructor
      · rw [List.countP_append, List.countP_append]
        have h0 : plan.dropLast.countP (fun s => s.is_final_step) = 0 := by
          rw [List.countP_eq_zero]
          intro a ha
          simp [h a ha]
        simp [h0, List.countP_cons, personaFinalStep]
      · exact ⟨personaFinalStep user_prompt, by simp, rfl, rfl⟩
  · rw [if_neg hc]
    rw [not_ne_iff] at hc
    cases hl : plan.getLast? with
    | none => rw [hl] at hc; exact absurd hc (by simp)
    | some last =>
      rw [hl] at hc
      have hlast : last.agent_name = "PersonaAgent" := by
        simpa using hc
      rw [updateLastStep_eq_concat _ plan last hl]
      constructor
      · rw [List.countP_append]
        have h0 : plan.dropLast.countP (fun s => s.is_final_step) = 0 := by
          rw [List.countP_eq_zero]
          intro a ha
          simp [h a ha]
        simp [h0, List.countP_cons]
      · exact ⟨{ last with is_final_step := true, instruction := personaInstruction user_prompt },
          by simp, rfl, hlast⟩

/-- C1 witness: a one-step plan from the planner with no mis-flagged early
step satisfies the amended invariant after normalization. -/
theorem normalizePlan_invariant_witness :
    (∀ s ∈ ([{ agent_name := "MainCoder", instruction := "x", is_final_step := false }] : List PlanStep).dropLast,
      s.is_final_step = false) ∧
    planInvariant (normalizePlan "p" [{ agent_name := "MainCoder", instruction := "x", is_final_step := false }]) :=
  ⟨by decide, normalizePlan_invariant_of_no_early_final "p" _ (by decide)⟩

/-! ### C2: safe path resolution -/

/-- C2 counterexample: the empty candidate resolves to the workspace root
itself, which the `relative_to` check accepts as a descendant, yet
`_safe_path` rejects the empty string up front (`if not filename_str`), so
"accepts every candidate whose resolved form is a descendant" fails at the
empty candidate. -/
theorem safe_path_empty_candidate_counterexample :
    (resolvePath ["home", "user", "vm"]).isPrefixOf
      (resolvePath (joinUnderRoot ["home", "user", "vm"] "")) = true ∧
    safe_path ["home", "user", "vm"] "" = none := by
  decide

/-- C2 amended: for every non-empty candidate, `_safe_path` returns the fully
resolved join of the candidate against the workspace root exactly when that
resolved path is a (weak) descendant of the resolved root — `..` segments
are collapsed before the check — and returns `None` exactly when it is not;
whatever it returns is always a descendant of the resolved root.  The empty
candidate is rejected outright even though it resolves to the root. -/
theorem safe_path_descendant_characterization (vm_dir : List String) (cand : String)
    (h : cand ≠ "") :
    (safe_path vm_dir cand = some (resolvePath (joinUnderRoot vm_dir cand)) ↔
      resolvePath vm_dir <+: resolvePath (joinUnderRoot vm_dir cand)) ∧
    (safe_path vm_dir cand = none ↔
      ¬ resolvePath vm_dir <+: resolvePath (joinUnderRoot vm_dir cand)) ∧
    (∀ p, safe_path vm_dir cand = some p →
      resolvePath vm_dir <+: p ∧ p = resolvePath (joinUnderRoot vm_dir cand)) := by
  unfold safe_path
  rw [if_neg h]
  by_cases hp : resolvePath vm_dir <+: resolvePath (joinUnderRoot vm_dir cand)
  · rw [if_pos (List.isPrefixOf_iff_prefix.mpr hp)]
    refine ⟨by simp [hp], by simp [hp], ?_⟩
    intro p hsome
    exact ⟨by simpa [← Option.some_injective _ hsome] using hp, (Option.some_injective _ hsome).symm⟩
  · rw [if_neg (by simpa using (fun hb => hp (List.isPrefixOf_iff_prefix.mp hb)))]
    exact ⟨by simp [hp], by simp [hp], by simp⟩

/-- C2 witness: a nested relative candidate resolves to a strict descendant
and is returned resolved; a `..` escape and an absolute path outside the
root are both rejected. -/
theorem safe_path_descendant_witness :
    safe_path ["home", "user", "vm"] "projects/sub/file.txt" =
      some ["home", "user", "vm", "projects", "sub", "file.txt"] ∧
    safe_path ["home", "user", "vm"] "../outside.txt" = none ∧
    safe_path ["home", "user", "vm"] "/etc/passwd" = none := by
  refine ⟨?_, ?_, ?_⟩
  · have h := (safe_path_descendant_characterization ["home", "user", "vm"] "projects/sub/file.txt"
      (by decide)).1.mpr (by decide)
    rw [h]
    decide
  · exact (safe_path_descendant_characterization ["home", "user", "vm"] "../outside.txt"
      (by decide)).2.1.mpr (by decide)
  · exact (safe_path_descendant_characterization ["home", "user", "vm"] "/etc/passwd"
      (by decide)).2.1.mpr (by decide)

/-! ### C3: run directive failures become replan requests -/

/-- C3: for a run directive whose command is non-empty and tokenizes to a
non-empty argument list, a non-zero exit code, a timeout, or a launch
failure always reaches the output stream as a replan-request event whose
reason carries the exit code (or the timeout/launch detail), a zero exit
code reaches it as a plain status message, and no run outcome whatsoever is
emitted as a plain error event. -/
theorem run_command_failure_replans (command elapsed : String) (outcome : ProcOutcome)
    (h1 : command ≠ "") (h2 : shlexSplit command ≠ []) :
    (∀ code stdout stderr, code ≠ 0 →
      ∃ pre post, dispatch_run_command (run_command command elapsed (.exited code stdout stderr)) =
        .replanRequest (pre ++ toString code ++ post) "MainCoder") ∧
    dispatch_run_command (run_command command elapsed .timedOut) =
      .replanRequest ("The command '" ++ command ++ "' timed out after 120 seconds.") "MainCoder" ∧
    (∀ msg, dispatch_run_command (run_command command elapsed (.launchError msg)) =
      .replanRequest ("Command execution error for '" ++ command ++ "': " ++ msg) "MainCoder") ∧
    (∀ stdout stderr, ∃ s,
      dispatch_run_command (run_command command elapsed (.exited 0 stdout stderr)) = .system s) ∧
    (∀ content, dispatch_run_command (run_command command elapsed outcome) ≠ .errorEvent content) := by
  refine ⟨?_, ?_, ?_, ?_, ?_⟩
  · intro code stdout stderr hcode
    refine ⟨"The command '" ++ command ++ "' failed with exit code ", ". Stderr: " ++ stderr, ?_⟩
    simp [run_command, dispatch_run_command, h1, h2, hcode, String.append_assoc]
  · simp [run_command, dispatch_run_command, h1, h2]
  · intro msg
    simp [run_command, dispatch_run_command, h1, h2]
  · intro stdout stderr
    cases hres : run_command command elapsed (.exited 0 stdout stderr) with
    | outputMsg s => exact ⟨s, rfl⟩
    | replanRequested r =>
      exfalso
      unfold run_command at hres
      rw [if_neg h1, if_neg h2] at hres
      simp at hres
  · intro content
    unfold run_command dispatch_run_command
    rw [if_neg h1, if_neg h2]
    cases outcome with
    | exited code stdout stderr =>
      by_cases hc : code = 0 <;> simp [hc]
    | timedOut => simp
    | launchError msg => simp

/-- C3 witness: a failing test command with exit code 2 is emitted as a
replan request carrying the exit code in its reason. -/
theorem run_command_failure_replans_witness :
    ("pytest" : String) ≠ "" ∧ shlexSplit "pytest" ≠ [] ∧
    (∃ pre post, dispatch_run_command (run_command "pytest" "0.10" (.exited 2 "" "boom")) =
      .replanRequest (pre ++ toString (2 : Int) ++ post) "MainCoder") :=
  ⟨by decide, by decide,
    (run_command_failure_replans "pytest" "0.10" (.exited 2 "" "boom") (by decide) (by decide)).1
      2 "" "boom" (by decide)⟩

/-! ### C10: keyword arguments are silently discarded -/

/-- C10: for a whitelisted directive whose positional arguments all evaluate
as literals, the processing yields no event at all (in particular no error
and no informational note) and dispatches the handler on exactly the
positional argument values, with any keyword arguments present in the parse
having no effect whatsoever; a call carrying only keyword arguments
therefore runs the handler on its declared defaults, as the
`list_directory_contents` binding shows. -/
theorem keyword_args_discarded (call : PyCall) (kws : List (String × PyExpr))
    (command_str : String) (args : List PyLit)
    (h : call.func ∈ commandWhitelist) (hargs : evalLiteralArgs call.args = some args) :
    process_parsed_call { call with keywords := kws } command_str = ([], some (call.func, args)) ∧
    process_parsed_call { call with keywords := [] } command_str = ([], some (call.func, args)) ∧
    bindListDirectoryArgs [] = some (".", true) := by
  refine ⟨?_, ?_, rfl⟩ <;> simp [process_parsed_call, h, hargs]

/-- C10 witness: `list_directory_contents(target_path="logs", recursive=True)`
parses with zero positional arguments; processing emits no events and
dispatches the handler with no positional arguments, so the declared
defaults `(".", True)` apply. -/
theorem keyword_args_discarded_witness :
    ("list_directory_contents" ∈ commandWhitelist) ∧
    evalLiteralArgs ([] : List PyExpr) = some [] ∧
    process_parsed_call
      { func := "list_directory_contents", args := [],
        keywords := [("target_path", .lit (.str "logs")), ("recursive", .lit (.bool true))] }
      "list_directory_contents(target_path=\"logs\", recursive=True)" =
      ([], some ("list_directory_contents", [])) :=
  ⟨by decide, rfl,
    (keyword_args_discarded
      { func := "list_directory_contents", args := [], keywords := [] }
      [("target_path", .lit (.str "logs")), ("recursive", .lit (.bool true))]
      "list_directory_contents(target_path=\"logs\", recursive=True)" []
      (by decide) rfl).1⟩

/-! ### C7: retry trigger -/

theorem gradedBatchCritiques_mem (batch : List String) (critiques : List ArtCritique)
    (cq : ArtCritique) :
    cq ∈ gradedBatchCritiques batch critiques ↔
      cq ∈ critiques ∧ cq.image_path ∈ batch ∧ cq.grade.isSome = true := by
  simp [gradedBatchCritiques, List.mem_filter, and_assoc]

theorem perform_retry_decision_eq (batch : List String) (critiques : List ArtCritique)
    (critic_grade final_art_grade : Option Nat) :
    perform_retry_decision true batch critiques critic_grade final_art_grade =
      ((!batch.isEmpty && critiques.any (fun cq => cq.grade.isSome) &&
        decide (0 < (gradedBatchCritiques batch critiques).length ∧
          (gradedBatchCritiques batch critiques).length =
            ((gradedBatchCritiques batch critiques).filter (fun cq => cq.grade.getD 0 < 70)).length)) ||
       ((critic_grade.isSome || final_art_grade.isSome) &&
        match calculate_overall_grade critic_grade final_art_grade with
        | some o => decide (o < 70)
        | none => false)) := by
  unfold perform_retry_decision
  simp only [Bool.true_and]
  cases hgate : (!batch.isEmpty && critiques.any fun cq => cq.grade.isSome) <;>
    cases hdec : decide (0 < (gradedBatchCritiques batch critiques).length ∧
      (gradedBatchCritiques batch critiques).length =
        ((gradedBatchCritiques batch critiques).filter (fun cq => cq.grade.getD 0 < 70)).length) <;>
      cases hpres : (critic_grade.isSome || final_art_grade.isSome) <;>
        cases ho : calculate_overall_grade critic_grade final_art_grade <;>
          simp [hgate, hdec, hpres, ho]

theorem overall_below_iff (critic_grade final_art_grade : Option Nat) :
    (match calculate_overall_grade critic_grade final_art_grade with
      | some o => decide (o < 70)
      | none => false) = true ↔
    ∃ o, calculate_overall_grade critic_grade final_art_grade = some o ∧ o < 70 := by
  cases ho : calculate_overall_grade critic_grade final_art_grade <;> simp [ho]

/-- C7: with grading enabled, a retry is flagged exactly when every graded
image variant of the current batch (of which there is at least one) scored
below 70, or some grade is present and the aggregate score is below 70; the
flagged retry is actually performed exactly while the attempt counter is
below the fixed maximum of 3.  In particular variants graded 50, 60, 65
trigger a retry while 50, 60, 75 (with the best variant's 75 as the art
grade and no other failing grade) do not. -/
theorem retry_decision_spec (batch : List String) (critiques : List ArtCritique)
    (critic_grade final_art_grade : Option Nat) (attempt : Nat) :
    (perform_retry_decision true batch critiques critic_grade final_art_grade = true ↔
      (((∃ cq ∈ critiques, cq.image_path ∈ batch ∧ cq.grade.isSome = true) ∧
        ∀ cq ∈ critiques, cq.image_path ∈ batch → ∀ g, cq.grade = some g → g < 70) ∨
       ((critic_grade.isSome = true ∨ final_art_grade.isSome = true) ∧
        ∃ o, calculate_overall_grade critic_grade final_art_grade = some o ∧ o < 70))) ∧
    (retry_performed (perform_retry_decision true batch critiques critic_grade final_art_grade)
        attempt = true ↔
      perform_retry_decision true batch critiques critic_grade final_art_grade = true ∧
        attempt < 3) ∧
    perform_retry_decision true ["a.png", "b.png", "c.png"]
      [{ image_path := "a.png", grade := some 50 }, { image_path := "b.png", grade := some 60 },
       { image_path := "c.png", grade := some 65 }] none (some 65) = true ∧
    perform_retry_decision true ["a.png", "b.png", "c.png"]
      [{ image_path := "a.png", grade := some 50 }, { image_path := "b.png", grade := some 60 },
       { image_path := "c.png", grade := some 75 }] none (some 75) = false := by
  have hA1 : 0 < (gradedBatchCritiques batch critiques).length ↔
      (∃ cq ∈ critiques, cq.image_path ∈ batch ∧ cq.grade.isSome = true) := by
    rw [List.length_pos_iff_exists_mem]
    constructor
    · rintro ⟨cq, hcq⟩
      obtain ⟨h1, h2, h3⟩ := (gradedBatchCritiques_mem batch critiques cq).mp hcq
      exact ⟨cq, h1, h2, h3⟩
    · rintro ⟨cq, h1, h2, h3⟩
      exact ⟨cq, (gradedBatchCritiques_mem batch critiques cq).mpr ⟨h1, h2, h3⟩⟩
  have hA2 : ((gradedBatchCritiques batch critiques).length =
      ((gradedBatchCritiques batch critiques).filter (fun cq => cq.grade.getD 0 < 70)).length) ↔
      (∀ cq ∈ critiques, cq.image_path ∈ batch → ∀ g, cq.grade = some g → g < 70) := by
    constructor
    · intro hlen cq hmem hpath g hg
      have hfe : (gradedBatchCritiques batch critiques).filter (fun cq => cq.grade.getD 0 < 70) =
          gradedBatchCritiques batch critiques :=
        (List.filter_sublist _).eq_of_length hlen.symm
      have hall := List.filter_eq_self.mp hfe
      have hin : cq ∈ gradedBatchCritiques batch critiques :=
        (gradedBatchCritiques_mem batch critiques cq).mpr ⟨hmem, hpath, by simp [hg]⟩
      have := hall cq hin
      simpa [hg] using this
    · intro hall
      have hfe : (gradedBatchCritiques batch critiques).filter (fun cq => cq.grade.getD 0 < 70) =
          gradedBatchCritiques batch critiques := by
        apply List.filter_eq_self.mpr
        intro cq hin
        obtain ⟨h1, h2, h3⟩ := (gradedBatchCritiques_mem batch critiques cq).mp hin
        obtain ⟨g, hg⟩ := Option.isSome_iff_exists.mp h3
        simpa [hg] using hall cq h1 h2 g hg
      rw [hfe]
  refine ⟨?_, ?_, by decide, by decide⟩
  · rw [perform_retry_decision_eq]
    simp only [Bool.or_eq_true, Bool.and_eq_true, decide_eq_true_eq]
    constructor
    · intro h
      rcases h with ⟨⟨_, _⟩, hP⟩ | ⟨hpres, hm⟩
      · left
        exact ⟨hA1.mp hP.1, hA2.mp hP.2⟩
      · right
        exact ⟨hpres, (overall_below_iff _ _).mp hm⟩
    · intro h
      rcases h with hA | hB
      · left
        refine ⟨⟨?_, ?_⟩, hA1.mpr hA.1, hA2.mpr hA.2⟩
        · obtain ⟨cq, h1, h2, h3⟩ := hA.1
          cases batch with
          | nil => cases h2
          | cons b bs => rfl
        · obtain ⟨cq, h1, h2, h3⟩ := hA.1
          exact List.any_eq_true.mpr ⟨cq, h1, h3⟩
      · right
        exact ⟨hB.1, (overall_below_iff _ _).mpr hB.2⟩
  · simp [retry_performed, max_retry_attempts, Bool.and_eq_true]

/-! ### C8: grade extraction -/

/-- C8 counterexample: the strict pattern's `(\d+)` capture is unbounded, so
the critique text `GRADE: 150/100` extracts the grade 150, outside the
claimed 0..100 range. -/
theorem extract_grade_out_of_range_counterexample :
    extract_grade "GRADE: 150/100" = some 150 ∧ ¬ (150 ≤ 100) := by
  constructor
  · decide
  · omega

theorem digitsVal_foldl_bound :
    ∀ (cs : List Char) (a : Nat), (∀ c ∈ cs, isDigitChar c = true) →
      List.foldl (fun a c => 10 * a + (c.toNat - 48)) a cs < (a + 1) * 10 ^ cs.length
  | [], a, _ => by simp
  | c :: cs, a, h => by
    have hd : c.toNat - 48 ≤ 9 := by
      have := h c (by simp)
      unfold isDigitChar at this
      simp only [Bool.and_eq_true, decide_eq_true_eq] at this
      omega
    have ih := digitsVal_foldl_bound cs (10 * a + (c.toNat - 48))
      (fun x hx => h x (by simp [hx]))
    calc List.foldl (fun a c => 10 * a + (c.toNat - 48)) a (c :: cs)
        = List.foldl (fun a c => 10 * a + (c.toNat - 48)) (10 * a + (c.toNat - 48)) cs := rfl
      _ < (10 * a + (c.toNat - 48) + 1) * 10 ^ cs.length := ih
      _ ≤ ((a + 1) * 10) * 10 ^ cs.length := by
          apply Nat.mul_le_mul_right
          omega
      _ = (a + 1) * 10 ^ (c :: cs).length := by
          rw [List.length_cons, pow_succ]
          ring

theorem digitsVal_lt_of_digits (cs : List Char) (h : ∀ c ∈ cs, isDigitChar c = true) :
    digitsVal cs < 10 ^ cs.length := by
  have := digitsVal_foldl_bound cs 0 h
  simpa [digitsVal] using this

theorem looseTryK_le (digits after : List Char) (hd : ∀ c ∈ digits, isDigitChar c = true) :
    ∀ j n, j ≤ 3 → looseTryK digits after j = some n → n ≤ 999
  | 0, n, _, h => by simp [looseTryK] at h
  | j + 1, n, hj, h => by
    unfold looseTryK at h
    by_cases hcond : (j + 1 ≤ digits.length && boundaryOk ((digits.drop (j + 1) ++ after).head?)) = true
    · rw [if_pos hcond] at h
      have hn : n = digitsVal (digits.take (j + 1)) := by
        exact (Option.some_injective _ h).symm
      have hall : ∀ c ∈ digits.take (j + 1), isDigitChar c = true :=
        fun c hc => hd c (List.mem_of_mem_take hc)
      have hlen : (digits.take (j + 1)).length ≤ 3 := by
        rw [List.length_take]
        omega
      have hbound := digitsVal_lt_of_digits (digits.take (j + 1)) hall
      have : 10 ^ (digits.take (j + 1)).length ≤ 10 ^ 3 :=
        Nat.pow_le_pow_right (by norm_num) hlen
      omega
    · rw [if_neg hcond] at h
      exact looseTryK_le digits after hd j n (by omega) h

theorem gradeLooseAt_le (prev : Option Char) (l : List Char) (n : Nat)
    (h : gradeLooseAt prev l = some n) : n ≤ 999 := by
  unfold gradeLooseAt at h
  by_cases hb : boundaryOk prev = false
  · rw [if_pos hb] at h
    cases h
  · rw [if_neg hb] at h
    cases hm : matchLower "grade".data l with
    | none => rw [hm] at h; cases h
    | some rest =>
      rw [hm] at h
      simp only at h
      apply looseTryK_le ((rest.dropWhile fun c => c = ':' || pyIsSpace c).takeWhile isDigitChar)
        ((rest.dropWhile fun c => c = ':' || pyIsSpace c).drop
          ((rest.dropWhile fun c => c = ':' || pyIsSpace c).takeWhile isDigitChar).length)
        (fun c hc => List.mem_takeWhile_imp hc) 3 n (by omega) h

theorem searchGradeLoose_le :
    ∀ (prev : Option Char) (l : List Char) (n : Nat),
      searchGradeLoose prev l = some n → n ≤ 999
  | _, [], n, h => by simp [searchGradeLoose] at h
  | prev, c :: rest, n, h => by
    unfold searchGradeLoose at h
    cases hm : gradeLooseAt prev (c :: rest) with
    | some m =>
      rw [hm] at h
      exact (Option.some_injective _ h) ▸ gradeLooseAt_le prev (c :: rest) m hm
    | none =>
      rw [hm] at h
      exact searchGradeLoose_le (some c) rest n h

/-- C8 amended: grade extraction returns absent exactly when neither pattern
matches; a returned value comes from the strict `GRADE: n/100` pattern when
it matches (with no a-priori upper bound), and only otherwise from the
looser `grade: n` fallback, whose three-digit capture bounds it by 999.
The claimed 0..100 range does not hold for the strict pattern (see the
counterexample); values are always non-negative naturals. -/
theorem extract_grade_amended_spec (s : String) (n : Nat)
    (h : extract_grade s = some n) :
    searchGradeSlash s.data = some n ∨
      (searchGradeSlash s.data = none ∧ searchGradeLoose none s.data = some n ∧ n ≤ 999) := by
  unfold extract_grade at h
  by_cases hs : s = ""
  · rw [if_pos hs] at h
    cases h
  · rw [if_neg hs] at h
    cases hm : searchGradeSlash s.data with
    | some m =>
      rw [hm] at h
      exact Or.inl h
    | none =>
      rw [hm] at h
      exact Or.inr ⟨rfl, h, searchGradeLoose_le none s.data n h⟩

/-- C8 witness: a critique containing only the loose pattern extracts its
value through the fallback, within the fallback's bound. -/
theorem extract_grade_amended_witness :
    extract_grade "Overall I would give this a grade: 85 for composition." = some 85 ∧
    (searchGradeSlash ("Overall I would give this a grade: 85 for composition.").data = some 85 ∨
      (searchGradeSlash ("Overall I would give this a grade: 85 for composition.").data = none ∧
       searchGradeLoose none ("Overall I would give this a grade: 85 for composition.").data = some 85 ∧
       85 ≤ 999)) :=
  ⟨by decide, extract_grade_amended_spec "Overall I would give this a grade: 85 for composition." 85 (by decide)⟩

/-! ### C4: line-range editing -/

theorem splitlinesChars_nil_eq (acc : List Char) :
    splitlinesChars [] acc = if acc.isEmpty then [] else [acc.reverse] := rfl

theorem splitlinesChars_cons_eq (c : Char) (rest acc : List Char) :
    splitlinesChars (c :: rest) acc =
      if c = '\n' then acc.reverse :: splitlinesChars rest []
      else splitlinesChars rest (c :: acc) := rfl

theorem splitlinesChars_no_newline :
    ∀ (cs acc : List Char), (∀ c ∈ acc, c ≠ '\n') →
      ∀ l ∈ splitlinesChars cs acc, ∀ c ∈ l, c ≠ '\n'
  | [], acc, hacc => by
    intro l hl
    rw [splitlinesChars_nil_eq] at hl
    split at hl
    · cases hl
    · simp only [List.mem_singleton] at hl
      subst hl
      intro c hc
      exact hacc c (List.mem_reverse.mp hc)
  | c :: rest, acc, hacc => by
    intro l hl
    rw [splitlinesChars_cons_eq] at hl
    by_cases hcn : c = '\n'
    · rw [if_pos hcn] at hl
      rcases List.mem_cons.mp hl with h | h
      · subst h
        intro d hd
        exact hacc d (List.mem_reverse.mp hd)
      · exact splitlinesChars_no_newline rest [] (by simp) l h
    · rw [if_neg hcn] at hl
      refine splitlinesChars_no_newline rest (c :: acc) ?_ l hl
      intro d hd
      rcases List.mem_cons.mp hd with h | h
      · exact h ▸ hcn
      · exact hacc d h

theorem pySplitlines_no_newline (s : String) :
    ∀ l ∈ pySplitlines s, ∀ c ∈ String.data l, c ≠ '\n' := by
  intro l hl
  unfold pySplitlines at hl
  obtain ⟨cl, hcl, rfl⟩ := List.mem_map.mp hl
  exact splitlinesChars_no_newline s.data [] (by simp) cl hcl

theorem splitlinesChars_append_newline :
    ∀ (cs : List Char), (∀ c ∈ cs, c ≠ '\n') → ∀ (rest acc : List Char),
      splitlinesChars (cs ++ '\n' :: rest) acc = (acc.reverse ++ cs) :: splitlinesChars rest []
  | [], _, rest, acc => by
    rw [List.nil_append, splitlinesChars_cons_eq, if_pos rfl, List.append_nil]
  | c :: cs, hcs, rest, acc => by
    have hc : c ≠ '\n' := hcs c (by simp)
    have ih := splitlinesChars_append_newline cs (fun d hd => hcs d (by simp [hd])) rest (c :: acc)
    rw [List.cons_append, splitlinesChars_cons_eq, if_neg hc, ih]
    simp

theorem splitlinesChars_no_newline_whole :
    ∀ (cs acc : List Char), (∀ c ∈ cs, c ≠ '\n') →
      splitlinesChars cs acc =
        if (acc.reverse ++ cs).isEmpty then [] else [acc.reverse ++ cs]
  | [], acc, _ => by
    rw [splitlinesChars_nil_eq, List.append_nil]
    cases acc with
    | nil => simp
    | cons a t => simp
  | c :: cs, acc, hcs => by
    have hc : c ≠ '\n' := hcs c (by simp)
    have ih := splitlinesChars_no_newline_whole cs (c :: acc) (fun d hd => hcs d (by simp [hd]))
    rw [splitlinesChars_cons_eq, if_neg hc, ih]
    have h1 : (c :: acc).reverse ++ cs = acc.reverse ++ c :: cs := by simp
    rw [h1]

theorem data_append_newline (x : String) (t : String) :
    (x ++ "\n" ++ t).data = x.data ++ '\n' :: t.data := by
  rw [String.data_append, String.data_append]
  have h : ("\n" : String).data = ['\n'] := rfl
  rw [h]
  simp

theorem pySplitlines_joinLines_append :
    ∀ (ls : List String), ls ≠ [] → (∀ l ∈ ls, ∀ c ∈ String.data l, c ≠ '\n') →
      pySplitlines (joinLines ls ++ "\n") = ls
  | [], h, _ => absurd rfl h
  | [x], _, hnl => by
    unfold pySplitlines
    have hd : (joinLines [x] ++ "\n").data = x.data ++ '\n' :: ("" : String).data := by
      show (x ++ "\n").data = _
      rw [String.data_append]
    rw [hd, splitlinesChars_append_newline x.data (hnl x (by simp)) _ []]
    rfl
  | x :: y :: tl, _, hnl => by
    unfold pySplitlines
    have hd : (joinLines (x :: y :: tl) ++ "\n").data =
        x.data ++ '\n' :: (joinLines (y :: tl) ++ "\n").data := by
      show ((x ++ "\n" ++ joinLines (y :: tl)) ++ "\n").data = _
      rw [String.data_append, data_append_newline]
      simp [String.data_append]
    rw [hd, splitlinesChars_append_newline x.data (hnl x (by simp)) _ []]
    have ih := pySplitlines_joinLines_append (y :: tl) (by simp)
      (fun l hl => hnl l (by simp [hl]))
    unfold pySplitlines at ih
    simp only [List.reverse_nil, List.nil_append, List.map_cons, ih]

theorem pySplitlines_joinLines :
    ∀ (ls : List String), ls ≠ [] → (∀ l ∈ ls, ∀ c ∈ String.data l, c ≠ '\n') →
      ls.getLast? ≠ some "" → pySplitlines (joinLines ls) = ls
  | [], h, _, _ => absurd rfl h
  | [x], _, hnl, hlast => by
    have hx : x ≠ "" := by
      intro hx
      exact hlast (by simp [hx])
    show pySplitlines x = [x]
    unfold pySplitlines
    rw [splitlinesChars_no_newline_whole x.data [] (hnl x (by simp))]
    have hne : (List.reverse ([] : List Char) ++ x.data).isEmpty = false := by
      simp only [List.reverse_nil, List.nil_append]
      cases hxd : x.data with
      | nil => exact absurd (by cases x; simp_all) hx
      | cons a t => rfl
    rw [hne]
    rfl
  | x :: y :: tl, _, hnl, hlast => by
    have hd : (joinLines (x :: y :: tl)).data =
        x.data ++ '\n' :: (joinLines (y :: tl)).data := by
      show (x ++ "\n" ++ joinLines (y :: tl)).data = _
      exact data_append_newline x _
    unfold pySplitlines
    rw [hd, splitlinesChars_append_newline x.data (hnl x (by simp)) _ []]
    have ih := pySplitlines_joinLines (y :: tl) (by simp)
      (fun l hl => hnl l (by simp [hl]))
      (by rw [← List.getLast?_cons_cons (a := x)]; exact hlast)
    unfold pySplitlines at ih
    simp only [List.reverse_nil, List.nil_append, List.map_cons, ih]

theorem mem_of_getLast?_eq (l : List Char) (a : Char) (h : l.getLast? = some a) : a ∈ l := by
  obtain ⟨hne, heq⟩ := List.mem_getLast?_eq_getLast (Option.mem_def.mpr h)
  rw [heq]
  exact List.getLast_mem hne

theorem data_ne_nil_of_ne_empty (s : String) (h : s ≠ "") : s.data ≠ [] := by
  intro hd
  apply h
  cases s
  simp_all

theorem joinLines_ne_empty (ls : List String) (h : ls ≠ [])
    (hnl : ∀ l ∈ ls, ∀ c ∈ String.data l, c ≠ '\n')
    (hlast : ls.getLast? ≠ some "") : joinLines ls ≠ "" := by
  intro he
  have hs := pySplitlines_joinLines ls h hnl hlast
  rw [he] at hs
  exact h (by rw [← hs]; rfl)

theorem joinLines_not_endsWith_newline :
    ∀ (ls : List String), (∀ l ∈ ls, ∀ c ∈ String.data l, c ≠ '\n') →
      ls.getLast? ≠ some "" → endsWithChar (joinLines ls) '\n' = false
  | [], _, _ => rfl
  | [x], hnl, hlast => by
    have hx : x ≠ "" := fun hx => hlast (by simp [hx])
    show endsWithChar x '\n' = false
    unfold endsWithChar
    rw [decide_eq_false_iff_not]
    intro hEq
    exact hnl x (by simp) '\n' (mem_of_getLast?_eq x.data '\n' hEq) rfl
  | x :: y :: tl, hnl, hlast => by
    have hJne : joinLines (y :: tl) ≠ "" :=
      joinLines_ne_empty (y :: tl) (by simp) (fun l hl => hnl l (by simp [hl]))
        (by rw [← List.getLast?_cons_cons (a := x)]; exact hlast)
    have hJd : (joinLines (y :: tl)).data ≠ [] := data_ne_nil_of_ne_empty _ hJne
    have ih := joinLines_not_endsWith_newline (y :: tl) (fun l hl => hnl l (by simp [hl]))
      (by rw [← List.getLast?_cons_cons (a := x)]; exact hlast)
    show endsWithChar (x ++ "\n" ++ joinLines (y :: tl)) '\n' = false
    unfold endsWithChar at ih ⊢
    rw [decide_eq_false_iff_not] at ih ⊢
    rw [data_append_newline]
    intro hEq
    rw [List.getLast?_append_of_ne_nil _ (by simp)] at hEq
    apply ih
    cases hJd' : (joinLines (y :: tl)).data with
    | nil => exact absurd hJd' hJd
    | cons a t =>
      rw [hJd'] at hEq
      rw [List.getLast?_cons_cons] at hEq
      exact hEq

theorem renderEdited_eq (content : String) (ls new_ls : List String) (flag : Bool) :
    renderEdited content ls new_ls flag =
      (if ls.isEmpty ∧ new_ls.isEmpty ∧ flag = true then ""
       else if (endsWithChar content '\n' = true ∧ joinLines ls ≠ "") ∨
           (content = "" ∧ joinLines ls ≠ "") then
         (if ¬ endsWithChar (joinLines ls) '\n' = true then joinLines ls ++ "\n"
          else joinLines ls)
       else joinLines ls) := rfl

theorem renderEdited_splitlines (content : String) (ls new_ls : List String) (flag : Bool)
    (hEnd : endsWithChar content '\n' = true ∨ content = "")
    (hnl : ∀ l ∈ ls, ∀ c ∈ String.data l, c ≠ '\n')
    (hlast : ls.getLast? ≠ some "") :
    pySplitlines (renderEdited content ls new_ls flag) = ls := by
  rw [renderEdited_eq]
  cases hls : ls with
  | nil =>
    have hj : joinLines ([] : List String) = "" := rfl
    rw [hj]
    split
    · rfl
    · rw [if_neg (by simp)]
      rfl
  | cons l0 lrest =>
    rw [← hls]
    have hlsne : ls ≠ [] := by rw [hls]; simp
    have hJne : joinLines ls ≠ "" := joinLines_ne_empty ls hlsne hnl hlast
    have hnend : endsWithChar (joinLines ls) '\n' = false :=
      joinLines_not_endsWith_newline ls hnl hlast
    have hcond : (endsWithChar content '\n' = true ∧ joinLines ls ≠ "") ∨
        (content = "" ∧ joinLines ls ≠ "") := by
      rcases hEnd with h | h
      · exact Or.inl ⟨h, hJne⟩
      · exact Or.inr ⟨h, hJne⟩
    have hempty : ls.isEmpty = false := by rw [hls]; rfl
    rw [if_neg (by simp [hempty]), if_pos hcond, if_pos (by rw [hnend]; simp)]
    exact pySplitlines_joinLines_append ls hlsne hnl

/-- C4: `_edit_file_lines` selects exactly one of three modes.  Empty
`new_text` deletes lines `start..end`, valid only for
`1 ≤ start ≤ end ≤ line count` (otherwise an error); `end < start` inserts
`new_text`'s lines immediately before line `start`, valid only for
`1 ≤ start ≤ line count + 1` with `end` otherwise ignored (otherwise an
error); otherwise it replaces lines `start..end`.  The resulting line lists
are the corresponding take/drop recombinations of the original lines, and
the concrete 5-line examples of the claim are instances (see the
witness). -/
theorem edit_file_lines_modes (content new_text : String) (s e : Int)
    (hEnd : endsWithChar content '\n' = true ∨ content = "") :
    (new_text = "" → 1 ≤ s → s ≤ e → e ≤ ((pySplitlines content).length : Int) →
      ((pySplitlines content).take (s - 1).toNat ++
        (pySplitlines content).drop e.toNat).getLast? ≠ some "" →
      ∃ out, edit_file_lines content s e new_text = .ok out ∧
        pySplitlines out = (pySplitlines content).take (s - 1).toNat ++
          (pySplitlines content).drop e.toNat) ∧
    (new_text = "" → ¬ (1 ≤ s ∧ s ≤ e ∧ e ≤ ((pySplitlines content).length : Int)) →
      ∃ msg, edit_file_lines content s e new_text = .error msg) ∧
    (new_text ≠ "" → e < s → 1 ≤ s → s ≤ ((pySplitlines content).length : Int) + 1 →
      ((pySplitlines content).take (s - 1).toNat ++ pySplitlines new_text ++
        (pySplitlines content).drop (s - 1).toNat).getLast? ≠ some "" →
      ∃ out, edit_file_lines content s e new_text = .ok out ∧
        pySplitlines out = (pySplitlines content).take (s - 1).toNat ++ pySplitlines new_text ++
          (pySplitlines content).drop (s - 1).toNat) ∧
    (new_text ≠ "" → e < s → ¬ (1 ≤ s ∧ s ≤ ((pySplitlines content).length : Int) + 1) →
      ∃ msg, edit_file_lines content s e new_text = .error msg) ∧
    (new_text ≠ "" → s ≤ e → 1 ≤ s → e ≤ ((pySplitlines content).length : Int) →
      ((pySplitlines content).take (s - 1).toNat ++ pySplitlines new_text ++
        (pySplitlines content).drop e.toNat).getLast? ≠ some "" →
      ∃ out, edit_file_lines content s e new_text = .ok out ∧
        pySplitlines out = (pySplitlines content).take (s - 1).toNat ++ pySplitlines new_text ++
          (pySplitlines content).drop e.toNat) := by
  have hnlL : ∀ l ∈ pySplitlines content, ∀ c ∈ String.data l, c ≠ '\n' :=
    pySplitlines_no_newline content
  have hnlN : ∀ l ∈ pySplitlines new_text, ∀ c ∈ String.data l, c ≠ '\n' :=
    pySplitlines_no_newline new_text
  refine ⟨?_, ?_, ?_, ?_, ?_⟩
  · intro h1 h2 h3 h4 h5
    simp only [edit_file_lines]
    rw [if_pos h1, if_pos (by refine ⟨h2, ?_, ?_, h4, h3⟩ <;> omega)]
    have hidx : ((e - 1).toNat + 1) = e.toNat := by omega
    rw [if_pos h1, hidx]
    refine ⟨_, rfl, ?_⟩
    apply renderEdited_splitlines content _ _ _ hEnd ?_ h5
    intro l hl
    rcases List.mem_append.mp hl with h | h
    · exact hnlL l (List.mem_of_mem_take h)
    · exact hnlL l (List.mem_of_mem_drop h)
  · intro h1 hno
    simp only [edit_file_lines]
    rw [if_pos h1, if_neg (by rintro ⟨a, b, c, d, f⟩; exact hno ⟨a, f, d⟩)]
    exact ⟨_, rfl⟩
  · intro h1 h2 h3 h4 h5
    simp only [edit_file_lines]
    rw [if_neg h1, if_pos h2, if_pos ⟨h3, h4⟩, if_neg h1]
    refine ⟨_, rfl, ?_⟩
    apply renderEdited_splitlines content _ _ _ hEnd ?_ h5
    intro l hl
    rcases List.mem_append.mp hl with h | h
    · rcases List.mem_append.mp h with h' | h'
      · exact hnlL l (List.mem_of_mem_take h')
      · exact hnlN l h'
    · exact hnlL l (List.mem_of_mem_drop h)
  · intro h1 h2 hno
    simp only [edit_file_lines]
    rw [if_neg h1, if_pos h2, if_neg hno]
    exact ⟨_, rfl⟩
  · intro h1 h2 h3 h4 h5
    simp only [edit_file_lines]
    rw [if_neg h1, if_neg (by omega), if_pos (Or.inl ⟨h3, by omega, by omega, h4, h2⟩)]
    have hidx : ((e - 1).toNat + 1) = e.toNat := by omega
    rw [if_neg h1, if_neg (by rintro ⟨hn0, _⟩; omega), hidx]
    refine ⟨_, rfl, ?_⟩
    apply renderEdited_splitlines content _ _ _ hEnd ?_ h5
    intro l hl
    rcases List.mem_append.mp hl with h | h
    · rcases List.mem_append.mp h with h' | h'
      · exact hnlL l (List.mem_of_mem_take h')
      · exact hnlN l h'
    · exact hnlL l (List.mem_of_mem_drop h)

/-- C4 witness: on the 5-line file `a..e`, deleting lines 3..3 yields the
4-line file with original lines 1,2,4,5 in order, and inserting `X` with
`start=3, end=2` yields the 6-line file with `X` at position 3 and the
original line 3 at position 4. -/
theorem edit_file_lines_modes_witness :
    (("" : String) = "" ∧ (1 : Int) ≤ 3 ∧ (3 : Int) ≤ 3 ∧
      (3 : Int) ≤ ((pySplitlines "a\nb\nc\nd\ne\n").length : Int) ∧
      ((pySplitlines "a\nb\nc\nd\ne\n").take ((3 : Int) - 1).toNat ++
        (pySplitlines "a\nb\nc\nd\ne\n").drop (3 : Int).toNat).getLast? ≠ some "") ∧
    (∃ out, edit_file_lines "a\nb\nc\nd\ne\n" 3 3 "" = .ok out ∧
      pySplitlines out = (pySplitlines "a\nb\nc\nd\ne\n").take ((3 : Int) - 1).toNat ++
        (pySplitlines "a\nb\nc\nd\ne\n").drop (3 : Int).toNat) ∧
    (∃ out, edit_file_lines "a\nb\nc\nd\ne\n" 3 2 "X" = .ok out ∧
      pySplitlines out = (pySplitlines "a\nb\nc\nd\ne\n").take ((3 : Int) - 1).toNat ++
        pySplitlines "X" ++ (pySplitlines "a\nb\nc\nd\ne\n").drop ((3 : Int) - 1).toNat) ∧
    edit_file_lines "a\nb\nc\nd\ne\n" 3 3 "" = .ok "a\nb\nd\ne\n" ∧
    edit_file_lines "a\nb\nc\nd\ne\n" 3 2 "X" = .ok "a\nb\nX\nc\nd\ne\n" :=
  ⟨⟨rfl, by decide, by decide, by decide, by decide⟩,
   (edit_file_lines_modes "a\nb\nc\nd\ne\n" "" 3 3 (by decide)).1 rfl (by decide) (by decide)
     (by decide) (by decide),
   (edit_file_lines_modes "a\nb\nc\nd\ne\n" "X" 3 2 (by decide)).2.2.1 (by decide) (by decide)
     (by decide) (by decide) (by decide),
   by rfl, by rfl⟩

/-! ### C5: memory journal pruning -/

theorem isHigh_of_wellFormed (e : MemEntry) (h : memEntryWellFormed e) :
    isHighPriorityLine e = decide (e.priority ≤ highPriorityThreshold) := by
  unfold isHighPriorityLine
  rw [h.1]

theorem not_isHigh_of_wellFormed (e : MemEntry) (h : memEntryWellFormed e) :
    (!isHighPriorityLine e) = decide (highPriorityThreshold < e.priority) := by
  rw [isHigh_of_wellFormed e h]
  by_cases hp : e.priority ≤ highPriorityThreshold
  · have h2 : ¬ highPriorityThreshold < e.priority := by omega
    simp [hp, h2]
  · have h2 : highPriorityThreshold < e.priority := by omega
    simp [hp, h2]

theorem dropFirstHighs_sublist : ∀ (k : Nat) (l : List MemEntry),
    List.Sublist (dropFirstHighs k l) l
  | _, [] => by simp [dropFirstHighs]
  | 0, e :: rest => by simp [dropFirstHighs]
  | k + 1, e :: rest => by
    unfold dropFirstHighs
    by_cases hh : isHighPriorityLine e
    · rw [if_pos hh]
      exact (dropFirstHighs_sublist k rest).cons e
    · rw [if_neg hh]
      exact (dropFirstHighs_sublist (k + 1) rest).cons₂ e

theorem dropFirstHighs_filter_high : ∀ (k : Nat) (l : List MemEntry),
    (dropFirstHighs k l).filter isHighPriorityLine =
      (l.filter isHighPriorityLine).drop k
  | _, [] => by simp [dropFirstHighs]
  | 0, e :: rest => by simp [dropFirstHighs]
  | k + 1, e :: rest => by
    unfold dropFirstHighs
    by_cases hh : isHighPriorityLine e
    · rw [if_pos hh, dropFirstHighs_filter_high k rest,
        List.filter_cons_of_pos hh, List.drop_succ_cons]
    · rw [if_neg hh, List.filter_cons_of_neg (by simp [hh]),
        List.filter_cons_of_neg (by simp [hh])]
      exact dropFirstHighs_filter_high (k + 1) rest

theorem dropFirstHighs_filter_low : ∀ (k : Nat) (l : List MemEntry),
    (dropFirstHighs k l).filter (fun e => !isHighPriorityLine e) =
      l.filter (fun e => !isHighPriorityLine e)
  | _, [] => by simp [dropFirstHighs]
  | 0, e :: rest => by simp [dropFirstHighs]
  | k + 1, e :: rest => by
    unfold dropFirstHighs
    by_cases hh : isHighPriorityLine e
    · rw [if_pos hh, List.filter_cons_of_neg (by simp [hh])]
      exact dropFirstHighs_filter_low k rest
    · rw [if_neg hh, List.filter_cons_of_pos (by simp [hh]),
        List.filter_cons_of_pos (by simp [hh]), dropFirstHighs_filter_low (k + 1) rest]

theorem greedyRemoveCount_take_sum :
    ∀ (ts : List Nat) (excess : Int), excess ≤ (ts.sum : Int) →
      excess ≤ (((ts.take (greedyRemoveCount ts excess)).sum : Nat) : Int)
  | [], excess, h => by simpa [greedyRemoveCount] using h
  | t :: rest, excess, h => by
    by_cases he : excess ≤ 0
    · simp only [greedyRemoveCount, if_pos he, List.take_zero, List.sum_nil]
      exact_mod_cast he
    · have hr : excess - (t : Int) ≤ (rest.sum : Int) := by
        rw [List.sum_cons] at h
        push_cast at h ⊢
        omega
      have ih := greedyRemoveCount_take_sum rest (excess - (t : Int)) hr
      simp only [greedyRemoveCount, if_neg he, Nat.add_comm 1, List.take_succ_cons, List.sum_cons]
      push_cast at ih ⊢
      omega

theorem greedyRemoveCount_take_sum_lt :
    ∀ (ts : List Nat) (excess : Int), 0 < greedyRemoveCount ts excess →
      (((ts.take (greedyRemoveCount ts excess - 1)).sum : Nat) : Int) < excess
  | [], excess, h => by simp [greedyRemoveCount] at h
  | t :: rest, excess, h => by
    by_cases he : excess ≤ 0
    · rw [greedyRemoveCount, if_pos he] at h
      omega
    · rw [greedyRemoveCount, if_neg he] at h ⊢
      by_cases hk : greedyRemoveCount rest (excess - (t : Int)) = 0
      · rw [hk]
        simp only [Nat.add_zero, Nat.sub_self, List.take_zero, List.sum_nil]
        push_cast
        omega
      · obtain ⟨m, hm⟩ : ∃ m, greedyRemoveCount rest (excess - (t : Int)) = m + 1 :=
          ⟨greedyRemoveCount rest (excess - (t : Int)) - 1, by omega⟩
        have ih := greedyRemoveCount_take_sum_lt rest (excess - (t : Int))
          (Nat.pos_of_ne_zero hk)
        rw [hm] at ih ⊢
        have hidx : 1 + (m + 1) - 1 = m + 1 := by omega
        rw [hidx, List.take_succ_cons, List.sum_cons]
        have hidx2 : m + 1 - 1 = m := by omega
        rw [hidx2] at ih
        push_cast at ih ⊢
        omega

/-- C5: `_log_to_memory` appends the entry and runs the pruning pass on the
journal's lines.  For a well-formed journal (each rendered line parses back
to its own priority): the high-priority token total coincides with the
priority-≤-threshold reading; when it is within the budget nothing is
touched; when it exceeds the budget there is a positive `k` such that
exactly the `k` oldest priority-≤-threshold lines are removed (the
priority-≤-threshold lines of the result are the original ones with the
first `k` dropped, and the above-threshold lines are untouched), the
remaining high-priority total is back at or under the budget while removing
only `k - 1` would not have sufficed, and exactly one pruning notice is
appended, at priority 3, strictly above the threshold. -/
theorem log_to_memory_prune_spec (lines : List MemEntry) (prune_ts : String)
    (hwf : ∀ en ∈ lines, memEntryWellFormed en) :
    (highTokenTotal lines =
      ((lines.filter (fun en => decide (en.priority ≤ highPriorityThreshold))).map
        memEntryTokens).sum) ∧
    (∀ journal category content priority ts,
      log_to_memory journal category content priority ts prune_ts =
        pruneMemory (journal ++
          [{ timestamp := ts, priority := priority, category := category, content := content }])
          prune_ts) ∧
    (highTokenTotal lines ≤ maxHighPriorityTokens → pruneMemory lines prune_ts = lines) ∧
    (maxHighPriorityTokens < highTokenTotal lines →
      ∃ k, 0 < k ∧
        pruneMemory lines prune_ts = dropFirstHighs k lines ++ [pruneNotice prune_ts k] ∧
        (dropFirstHighs k lines).filter (fun en => decide (en.priority ≤ highPriorityThreshold)) =
          (lines.filter (fun en => decide (en.priority ≤ highPriorityThreshold))).drop k ∧
        (dropFirstHighs k lines).filter (fun en => decide (highPriorityThreshold < en.priority)) =
          lines.filter (fun en => decide (highPriorityThreshold < en.priority)) ∧
        highTokenTotal (dropFirstHighs k lines) ≤ maxHighPriorityTokens ∧
        maxHighPriorityTokens < highTokenTotal (dropFirstHighs (k - 1) lines) ∧
        (pruneNotice prune_ts k).priority = 3 ∧
        highPriorityThreshold < (pruneNotice prune_ts k).priority) := by
  have hconvHigh : lines.filter isHighPriorityLine =
      lines.filter (fun en => decide (en.priority ≤ highPriorityThreshold)) :=
    List.filter_congr (fun en hen => isHigh_of_wellFormed en (hwf en hen))
  have hconvLow : lines.filter (fun en => !isHighPriorityLine en) =
      lines.filter (fun en => decide (highPriorityThreshold < en.priority)) :=
    List.filter_congr (fun en hen => not_isHigh_of_wellFormed en (hwf en hen))
  refine ⟨by rw [highTokenTotal, hconvHigh], fun _ _ _ _ _ => rfl, ?_, ?_⟩
  · intro hle
    simp only [pruneMemory]
    rw [if_neg (by omega)]
  · intro hover
    set T : List Nat := (lines.filter isHighPriorityLine).map memEntryTokens with hT
    have htotal : highTokenTotal lines = T.sum := rfl
    set excess : Int := ((highTokenTotal lines : Nat) : Int) - (maxHighPriorityTokens : Int)
      with hexcess
    set k : Nat := greedyRemoveCount T excess with hk
    have hexpos : 0 < excess := by
      rw [hexcess]
      omega
    have hTne : T ≠ [] := by
      intro hnil
      rw [htotal, hnil] at hover
      simp [maxHighPriorityTokens] at hover
    have hkpos : 0 < k := by
      rw [hk]
      cases hTc : T with
      | nil => exact absurd hTc hTne
      | cons t rest =>
        rw [greedyRemoveCount, if_neg (by omega)]
        omega
    have hG1 : excess ≤ (((T.take k).sum : Nat) : Int) := by
      rw [hk]
      apply greedyRemoveCount_take_sum
      rw [hexcess, htotal]
      omega
    have hG2 : (((T.take (k - 1)).sum : Nat) : Int) < excess := by
      rw [hk]
      exact greedyRemoveCount_take_sum_lt T excess (hk ▸ hkpos)
    have hbody : ∀ j : Nat, highTokenTotal (dropFirstHighs j lines) = (T.drop j).sum := by
      intro j
      rw [highTokenTotal, dropFirstHighs_filter_high, hT, List.map_drop]
    have hsplit : ∀ j : Nat, (T.take j).sum + (T.drop j).sum = T.sum :=
      fun j => List.sum_take_add_sum_drop T j
    refine ⟨k, hkpos, ?_, ?_, ?_, ?_, ?_, rfl, ?_⟩
    · simp only [pruneMemory]
      rw [← hT, ← hexcess, ← hk]
      rw [if_pos (by omega), if_neg (by omega)]
    · have hsub := dropFirstHighs_sublist k lines
      have h1 : (dropFirstHighs k lines).filter
          (fun en => decide (en.priority ≤ highPriorityThreshold)) =
          (dropFirstHighs k lines).filter isHighPriorityLine :=
        (List.filter_congr (fun en hen =>
          isHigh_of_wellFormed en (hwf en (hsub.mem hen)))).symm
      rw [h1, dropFirstHighs_filter_high, hconvHigh]
    · have hsub := dropFirstHighs_sublist k lines
      have h1 : (dropFirstHighs k lines).filter
          (fun en => decide (highPriorityThreshold < en.priority)) =
          (dropFirstHighs k lines).filter (fun en => !isHighPriorityLine en) :=
        (List.filter_congr (fun en hen =>
          not_isHigh_of_wellFormed en (hwf en (hsub.mem hen)))).symm
      rw [h1, dropFirstHighs_filter_low, hconvLow]
    · rw [hbody k]
      have h1 := hsplit k
      rw [htotal] at hover
      rw [hexcess, htotal] at hG1
      omega
    · rw [hbody (k - 1)]
      have h1 := hsplit (k - 1)
      rw [htotal] at hover
      rw [hexcess, htotal] at hG2
      omega
    · show highPriorityThreshold < (pruneNotice prune_ts k).priority
      norm_num [pruneNotice, highPriorityThreshold]

set_option maxRecDepth 40000 in
/-- C5 witness: 450 priority-1 entries exceed the 10000-token budget; the
pruning pass removes a positive number of oldest high-priority entries,
lands back at or under budget (while one fewer removal would not), keeps
above-threshold entries untouched, and appends exactly one priority-3
notice. -/
theorem log_to_memory_prune_witness :
    (∀ en ∈ memWitnessJournal, memEntryWellFormed en) ∧
    maxHighPriorityTokens < highTokenTotal memWitnessJournal ∧
    (∃ k, 0 < k ∧
      pruneMemory memWitnessJournal "2024-01-01 00:00:03" =
        dropFirstHighs k memWitnessJournal ++ [pruneNotice "2024-01-01 00:00:03" k] ∧
      (dropFirstHighs k memWitnessJournal).filter
          (fun en => decide (en.priority ≤ highPriorityThreshold)) =
        (memWitnessJournal.filter (fun en => decide (en.priority ≤ highPriorityThreshold))).drop k ∧
      (dropFirstHighs k memWitnessJournal).filter
          (fun en => decide (highPriorityThreshold < en.priority)) =
        memWitnessJournal.filter (fun en => decide (highPriorityThreshold < en.priority)) ∧
      highTokenTotal (dropFirstHighs k memWitnessJournal) ≤ maxHighPriorityTokens ∧
      maxHighPriorityTokens < highTokenTotal (dropFirstHighs (k - 1) memWitnessJournal) ∧
      (pruneNotice "2024-01-01 00:00:03" k).priority = 3 ∧
      highPriorityThreshold < (pruneNotice "2024-01-01 00:00:03" k).priority) :=
  ⟨by decide, by decide,
   (log_to_memory_prune_spec memWitnessJournal "2024-01-01 00:00:03" (by decide)).2.2.2
     (by decide)⟩

/-! ### C6: trash-based delete -/

theorem digitChar_val (d : Nat) (h : d < 10) : (digitChar d).toNat - 48 = d := by
  interval_cases d <;> rfl

theorem digitsVal_append_digit (xs : List Char) (c : Char) :
    digitsVal (xs ++ [c]) = 10 * digitsVal xs + (c.toNat - 48) := by
  simp [digitsVal, List.foldl_append]

theorem digitsVal_natReprFuel :
    ∀ (fuel n : Nat), n < 10 ^ fuel → digitsVal (natReprFuel fuel n) = n
  | 0, n, h => by
    simp only [pow_zero, Nat.lt_one_iff] at h
    simp [h, natReprFuel, digitsVal]
  | fuel + 1, n, h => by
    unfold natReprFuel
    by_cases hn : n < 10
    · rw [if_pos hn]
      show digitsVal ([] ++ [digitChar n]) = n
      rw [digitsVal_append_digit]
      simp [digitsVal, digitChar_val n hn]
    · rw [if_neg hn]
      rw [digitsVal_append_digit]
      have hdiv : n / 10 < 10 ^ fuel := by
        apply Nat.div_lt_of_lt_mul
        rw [pow_succ] at h
        omega
      rw [digitsVal_natReprFuel fuel (n / 10) hdiv, digitChar_val (n % 10) (Nat.mod_lt n (by omega))]
      omega

theorem digitsVal_natRepr (n : Nat) : digitsVal (natRepr n).data = n := by
  unfold natRepr
  exact digitsVal_natReprFuel (n + 1) n
    (lt_of_lt_of_le (Nat.lt_pow_self (by norm_num) n)
      (Nat.pow_le_pow_right (by norm_num) (Nat.le_succ n)))

theorem natRepr_injective (a b : Nat) (h : natRepr a = natRepr b) : a = b := by
  have := congrArg (fun s => digitsVal (String.data s)) h
  simpa [digitsVal_natRepr] using this

theorem trashCandidateName_injective (orig : String) (is_dir : Bool) (ts : String)
    (i j : Nat) (h : trashCandidateName orig is_dir ts i = trashCandidateName orig is_dir ts j) :
    i = j := by
  apply natRepr_injective
  have hd := congrArg String.data h
  unfold trashCandidateName at hd
  cases is_dir with
  | true =>
    simp only [if_pos, String.data_append, List.append_assoc] at hd
    have h1 := List.append_cancel_left hd
    have h2 := List.append_cancel_left h1
    have h3 := List.append_cancel_left h2
    have h4 := List.append_cancel_left h3
    cases hna : natRepr i
    cases hnb : natRepr j
    rw [hna, hnb] at h4
    simp_all
  | false =>
    simp only [if_neg, Bool.false_eq_true, not_false_eq_true, String.data_append,
      List.append_assoc] at hd
    have h1 := List.append_cancel_left hd
    have h2 := List.append_cancel_left h1
    have h3 := List.append_cancel_left h2
    have h4 := List.append_cancel_left h3
    have h5 := List.append_cancel_right h4
    cases hna : natRepr i
    cases hnb : natRepr j
    rw [hna, hnb] at h5
    simp_all

theorem freshTrashLoop_not_exists (fs1 : List FsEntry) (trash_dir : List String)
    (orig : String) (is_dir : Bool) (ts : String) :
    ∀ (fuel counter : Nat) (current : String),
      (pathExists fs1 (trash_dir ++ [current]) = false ∨
        ∃ i, counter + 1 ≤ i ∧ i ≤ counter + fuel ∧
          pathExists fs1 (trash_dir ++ [trashCandidateName orig is_dir ts i]) = false) →
      pathExists fs1
        (trash_dir ++ [freshTrashLoop fs1 trash_dir orig is_dir ts fuel counter current]) = false
  | 0, counter, current, h => by
    rcases h with h | ⟨i, h1, h2, _⟩
    · exact h
    · omega
  | fuel + 1, counter, current, h => by
    unfold freshTrashLoop
    by_cases hfree : pathExists fs1 (trash_dir ++ [current]) = false
    · rw [if_pos hfree]
      exact hfree
    · rw [if_neg hfree]
      rcases h with h | ⟨i, h1, h2, hgood⟩
      · exact absurd h hfree
      · apply freshTrashLoop_not_exists fs1 trash_dir orig is_dir ts fuel (counter + 1)
        by_cases hi : i = counter + 1
        · left
          rw [← hi]
          exact hgood
        · right
          exact ⟨i, by omega, by omega, hgood⟩

theorem exists_free_candidate (fs1 : List FsEntry) (trash_dir : List String)
    (orig : String) (is_dir : Bool) (ts : String) :
    ∃ i, 1 ≤ i ∧ i ≤ fs1.length + 1 ∧
      pathExists fs1 (trash_dir ++ [trashCandidateName orig is_dir ts i]) = false := by
  by_contra hno
  push_neg at hno
  have hall : ∀ i ∈ Finset.Icc 1 (fs1.length + 1),
      (trash_dir ++ [trashCandidateName orig is_dir ts i]) ∈ (fs1.map FsEntry.path).toFinset := by
    intro i hi
    simp only [Finset.mem_Icc] at hi
    have hne := hno i hi.1 hi.2
    have htrue : pathExists fs1 (trash_dir ++ [trashCandidateName orig is_dir ts i]) = true := by
      cases hpe : pathExists fs1 (trash_dir ++ [trashCandidateName orig is_dir ts i]) with
      | false => exact absurd hpe hne
      | true => rfl
    obtain ⟨e, he, heq⟩ := List.any_eq_true.mp htrue
    apply List.mem_toFinset.mpr
    apply List.mem_map.mpr
    exact ⟨e, he, of_decide_eq_true heq⟩
  have hinj : Set.InjOn (fun i => trash_dir ++ [trashCandidateName orig is_dir ts i])
      (Finset.Icc 1 (fs1.length + 1)) := by
    intro i _ j _ h
    have h2 := List.append_cancel_left h
    simp only [List.cons.injEq, and_true] at h2
    exact trashCandidateName_injective orig is_dir ts i j h2
  have hcard := Finset.card_le_card_of_injOn _ hall hinj
  rw [Nat.card_Icc] at hcard
  have hle : (fs1.map FsEntry.path).toFinset.card ≤ fs1.length := by
    calc (fs1.map FsEntry.path).toFinset.card ≤ (fs1.map FsEntry.path).length :=
      (fs1.map FsEntry.path).toFinset_card_le
    _ = fs1.length := List.length_map fs1 FsEntry.path
  omega

theorem fresh_trash_name_not_exists (fs1 : List FsEntry) (trash_dir : List String)
    (orig : String) (is_dir : Bool) (ts : String) :
    pathExists fs1 (trash_dir ++ [fresh_trash_name fs1 trash_dir orig is_dir ts]) = false := by
  unfold fresh_trash_name
  apply freshTrashLoop_not_exists
  by_cases hfree : pathExists fs1 (trash_dir ++ [orig]) = false
  · exact Or.inl hfree
  · right
    obtain ⟨i, h1, h2, hgood⟩ := exists_free_candidate fs1 trash_dir orig is_dir ts
    exact ⟨i, by omega, by omega, hgood⟩

theorem rebasePath_self (src dst : List String) : rebasePath src dst src = dst := by
  unfold rebasePath
  rw [if_pos (List.isPrefixOf_iff_prefix.mpr (List.prefix_refl src))]
  rw [List.drop_length, List.append_nil]

theorem rebasePath_untouched (src dst q : List String) (h : ¬ List.IsPrefix src q) :
    rebasePath src dst q = q := by
  unfold rebasePath
  rw [if_neg (fun hb => h (List.isPrefixOf_iff_prefix.mp hb))]

theorem pathExists_of_mem (l : List FsEntry) (e : FsEntry) (he : e ∈ l) (q : List String)
    (hq : e.path = q) : pathExists l q = true :=
  List.any_eq_true.mpr ⟨e, he, decide_eq_true hq⟩

/-- C6: deleting an existing item that is neither above nor inside the trash
moves it (with its subtree) to a collision-free name directly under the
`.trash` directory: the destination did not exist beforehand (so nothing in
the trash is ever overwritten — deleting a second file with the same name
lands on a different name), the deleted path no longer exists afterwards,
the moved item exists at its trash destination, every previously trashed
item survives unchanged, and the trash directory itself exists afterwards
(it is created when absent). -/
theorem delete_file_trash_spec (vm_dir : List String) (fs : List FsEntry) (ts path_str : String)
    (p : List String)
    (hsafe : safe_path vm_dir path_str = some p)
    (hex : pathExists fs p = true)
    (hroot : ¬ List.IsPrefix p (vm_dir ++ [trashDirName]))
    (htrash : ¬ List.IsPrefix (vm_dir ++ [trashDirName]) p) :
    ∃ fs' dest_name msg,
      delete_file vm_dir fs ts path_str =
        .moved fs' (vm_dir ++ [trashDirName] ++ [dest_name]) msg ∧
      pathExists fs (vm_dir ++ [trashDirName] ++ [dest_name]) = false ∧
      pathExists fs' p = false ∧
      pathExists fs' (vm_dir ++ [trashDirName] ++ [dest_name]) = true ∧
      (∀ en ∈ fs, List.IsPrefix (vm_dir ++ [trashDirName]) en.path →
        pathExists fs' en.path = true) ∧
      pathExists fs' (vm_dir ++ [trashDirName]) = true := by
  set trashD : List String := vm_dir ++ [trashDirName] with htD
  set fs1 : List FsEntry :=
    if pathExists fs trashD then fs else fs ++ [{ path := trashD, is_dir := true }] with hfs1
  set dn : String := fresh_trash_name fs1 trashD (p.getLastD "") (isDirAt fs p) ts with hdn
  have hmem1 : ∀ e ∈ fs, e ∈ fs1 := by
    intro e he
    rw [hfs1]
    split
    · exact he
    · exact List.mem_append_left _ he
  have hfresh : pathExists fs1 (trashD ++ [dn]) = false := by
    rw [hdn]
    exact fresh_trash_name_not_exists fs1 trashD (p.getLastD "") (isDirAt fs p) ts
  have heq : delete_file vm_dir fs ts path_str =
      .moved (moveEntry p (trashD ++ [dn]) fs1) (trashD ++ [dn])
        ("🗑️ Moved " ++ (if isDirAt fs p then "directory" else "file") ++
         " to trash: " ++ path_str ++ " (as " ++ dn ++ ")") := by
    simp only [delete_file, hsafe]
    rw [if_neg (by simp [hex])]
  refine ⟨moveEntry p (trashD ++ [dn]) fs1, dn, _, heq, ?_, ?_, ?_, ?_, ?_⟩
  · cases hpe : pathExists fs (trashD ++ [dn]) with
    | false => rfl
    | true =>
      exfalso
      obtain ⟨e, he, hd⟩ := List.any_eq_true.mp hpe
      have : pathExists fs1 (trashD ++ [dn]) = true :=
        pathExists_of_mem fs1 e (hmem1 e he) _ (of_decide_eq_true hd)
      rw [this] at hfresh
      cases hfresh
  · rw [pathExists, moveEntry, List.any_map]
    apply List.any_eq_false.mpr
    intro e _
    simp only [Function.comp_apply, decide_eq_true_eq]
    by_cases hpre : List.IsPrefix p e.path
    · rw [rebasePath, if_pos (List.isPrefixOf_iff_prefix.mpr hpre)]
      intro hval
      apply htrash
      refine ⟨[dn] ++ e.path.drop p.length, ?_⟩
      rw [← List.append_assoc, hval]
    · rw [rebasePath_untouched p _ _ hpre]
      intro hval
      exact hpre (hval ▸ List.prefix_refl p)
  · obtain ⟨e0, he0, hd0⟩ := List.any_eq_true.mp hex
    have hp0 : e0.path = p := of_decide_eq_true hd0
    apply pathExists_of_mem (moveEntry p (trashD ++ [dn]) fs1)
      { e0 with path := rebasePath p (trashD ++ [dn]) e0.path }
      (List.mem_map.mpr ⟨e0, hmem1 e0 he0, rfl⟩)
    simp only [hp0]
    exact rebasePath_self p (trashD ++ [dn])
  · intro en hen hpref
    have hnp : ¬ List.IsPrefix p en.path := by
      intro hp
      rcases List.prefix_or_prefix_of_prefix hp hpref with h | h
      · exact hroot h
      · exact htrash h
    apply pathExists_of_mem (moveEntry p (trashD ++ [dn]) fs1)
      { en with path := rebasePath p (trashD ++ [dn]) en.path }
      (List.mem_map.mpr ⟨en, hmem1 en hen, rfl⟩)
    simp only
    exact rebasePath_untouched p _ _ hnp
  · by_cases hte : pathExists fs trashD = true
    · obtain ⟨e1, he1, hd1⟩ := List.any_eq_true.mp hte
      apply pathExists_of_mem (moveEntry p (trashD ++ [dn]) fs1)
        { e1 with path := rebasePath p (trashD ++ [dn]) e1.path }
        (List.mem_map.mpr ⟨e1, hmem1 e1 he1, rfl⟩)
      simp only [of_decide_eq_true hd1]
      exact rebasePath_untouched p _ _ hroot
    · have htmem : ({ path := trashD, is_dir := true } : FsEntry) ∈ fs1 := by
        rw [hfs1]
        split
        · simp_all
        · exact List.mem_append_right _ (by simp)
      apply pathExists_of_mem (moveEntry p (trashD ++ [dn]) fs1)
        { path := rebasePath p (trashD ++ [dn]) trashD, is_dir := true }
        (List.mem_map.mpr ⟨{ path := trashD, is_dir := true }, htmem, rfl⟩)
      simp only
      exact rebasePath_untouched p _ _ hroot

/-- C6 witness: deleting `a/f.txt` while the trash already holds an `f.txt`
(as if an identically named file had been deleted before) succeeds with a
fresh, non-overwriting destination name: the destination did not exist
before (hence differs from the existing trash entry), the original location
is empty afterwards, and the previously trashed `f.txt` survives. -/
theorem delete_file_trash_witness :
    safe_path ["ws"] "a/f.txt" = some ["ws", "a", "f.txt"] ∧
    pathExists
      [{ path := ["ws"], is_dir := true }, { path := ["ws", ".trash"], is_dir := true },
       { path := ["ws", ".trash", "f.txt"], is_dir := false },
       { path := ["ws", "a"], is_dir := true }, { path := ["ws", "a", "f.txt"], is_dir := false }]
      ["ws", "a", "f.txt"] = true ∧
    (∃ fs' dest_name msg,
      delete_file ["ws"]
        [{ path := ["ws"], is_dir := true }, { path := ["ws", ".trash"], is_dir := true },
         { path := ["ws", ".trash", "f.txt"], is_dir := false },
         { path := ["ws", "a"], is_dir := true }, { path := ["ws", "a", "f.txt"], is_dir := false }]
        "20240101120000" "a/f.txt" =
        .moved fs' (["ws"] ++ [trashDirName] ++ [dest_name]) msg ∧
      pathExists
        [{ path := ["ws"], is_dir := true }, { path := ["ws", ".trash"], is_dir := true },
         { path := ["ws", ".trash", "f.txt"], is_dir := false },
         { path := ["ws", "a"], is_dir := true }, { path := ["ws", "a", "f.txt"], is_dir := false }]
        (["ws"] ++ [trashDirName] ++ [dest_name]) = false ∧
      pathExists fs' ["ws", "a", "f.txt"] = false ∧
      pathExists fs' (["ws"] ++ [trashDirName] ++ [dest_name]) = true ∧
      (∀ en ∈ ([{ path := ["ws"], is_dir := true }, { path := ["ws", ".trash"], is_dir := true },
         { path := ["ws", ".trash", "f.txt"], is_dir := false },
         { path := ["ws", "a"], is_dir := true },
         { path := ["ws", "a", "f.txt"], is_dir := false }] : List FsEntry),
        List.IsPrefix (["ws"] ++ [trashDirName]) en.path → pathExists fs' en.path = true) ∧
      pathExists fs' (["ws"] ++ [trashDirName]) = true) :=
  ⟨by decide, by decide,
   delete_file_trash_spec ["ws"]
     [{ path := ["ws"], is_dir := true }, { path := ["ws", ".trash"], is_dir := true },
      { path := ["ws", ".trash", "f.txt"], is_dir := false },
      { path := ["ws", "a"], is_dir := true }, { path := ["ws", "a", "f.txt"], is_dir := false }]
     "20240101120000" "a/f.txt" ["ws", "a", "f.txt"]
     (by decide) (by decide) (by decide) (by decide)⟩

